import Mathlib

/-!
# VSFS metadata journaling: a shallow embedding of `journal.c`

The image file is a map from byte offsets to bytes, together with the list of
writes issued so far (offset and bytes, in issue order).  Block I/O is taken to
succeed (the `die` paths are not modelled).  Multi-byte integers are
little-endian, `struct data_record` is laid out without padding
(4 + 4 + 4096 = 4104 bytes).  Memory buffers are maps from an index to a byte.
An access outside a C array is undefined behaviour and is modelled by `none`.
-/

namespace VSFS

/-! ## Constants -/

def BLOCK_SIZE : Nat := 4096
def INODE_SIZE : Nat := 128
def JOURNAL_BLOCK_IDX : Nat := 1
def JOURNAL_BLOCKS : Nat := 16
def INODE_BMAP_IDX : Nat := JOURNAL_BLOCK_IDX + JOURNAL_BLOCKS
def DATA_BMAP_IDX : Nat := INODE_BMAP_IDX + 1
def INODE_START_IDX : Nat := DATA_BMAP_IDX + 1
def DATA_START_IDX : Nat := INODE_START_IDX + 2
def JOURNAL_MAGIC : Nat := 0x4A524E4C
def REC_DATA : Nat := 1
def REC_COMMIT : Nat := 2

/-- The value of `sizeof(struct journal_header)`. -/
def SIZEOF_JOURNAL_HEADER : Nat := 8
/-- The value of `sizeof(struct rec_header)`, also `sizeof(struct commit_record)`. -/
def SIZEOF_REC_HEADER : Nat := 4
/-- The value of `sizeof(struct data_record)`. -/
def SIZEOF_DATA_RECORD : Nat := SIZEOF_REC_HEADER + 4 + BLOCK_SIZE
/-- The value of `sizeof(struct dirent)`. -/
def SIZEOF_DIRENT : Nat := 32
/-- Number of entries of `pending[]` in `cmd_install`. -/
def PENDING_MAX : Nat := 64
/-- Size in bytes of the `journal[]` buffer of `cmd_install`. -/
def JOURNAL_BYTES : Nat := BLOCK_SIZE * JOURNAL_BLOCKS

/-! ## Buffers and the image -/

/-- A memory buffer: byte at each index. -/
abbrev Buf := Nat → Nat

/-- The image file with the log of the writes issued on it. -/
structure Disk where
  data : Nat → Nat
  writes : List (Nat × List Nat)

/-- The first `n` bytes of a buffer. -/
def bytes (buf : Buf) (n : Nat) : List Nat := (List.range n).map buf

/-- A `uint16_t` stored at index `p`. -/
def le16 (b : Buf) (p : Nat) : Nat := b p % 256 + 256 * (b (p + 1) % 256)

/-- A `uint32_t` stored at index `p`. -/
def le32 (b : Buf) (p : Nat) : Nat :=
  b p % 256 + 256 * (b (p + 1) % 256) + 65536 * (b (p + 2) % 256)
    + 16777216 * (b (p + 3) % 256)

/-- Store a `uint16_t` at index `p`. -/
def store16 (b : Buf) (p v : Nat) : Buf := fun k =>
  if k = p then v % 256 else if k = p + 1 then v / 256 % 256 else b k

/-- Store a `uint32_t` at index `p`. -/
def store32 (b : Buf) (p v : Nat) : Buf := fun k =>
  if k = p then v % 256 else if k = p + 1 then v / 256 % 256
  else if k = p + 2 then v / 65536 % 256 else if k = p + 3 then v / 16777216 % 256
  else b k

/-- The C `memset(dst + off, c, n)`. -/
def memset (dst : Buf) (off c n : Nat) : Buf := fun k =>
  if off ≤ k ∧ k < off + n then c else dst k

/-- The C `memcpy(dst + doff, src + soff, n)`. -/
def memcpy (dst : Buf) (doff : Nat) (src : Buf) (soff n : Nat) : Buf := fun k =>
  if doff ≤ k ∧ k < doff + n then src (soff + (k - doff)) else dst k

/-- The `pwrite(fd, buf, n, off)` system call. -/
def pwrite (d : Disk) (buf : Buf) (n off : Nat) : Disk :=
  { data := fun a => if off ≤ a ∧ a < off + n then buf (a - off) else d.data a
    writes := d.writes ++ [(off, bytes buf n)] }

/-- The `read_block(fd, block_no, buf + off)`: fills `BLOCK_SIZE` bytes of `buf`. -/
def read_block (d : Disk) (block_no : Nat) (buf : Buf) (off : Nat) : Buf :=
  memcpy buf off d.data (block_no * BLOCK_SIZE) BLOCK_SIZE

/-- The `write_block(fd, block_no, buf)`. -/
def write_block (d : Disk) (block_no : Nat) (buf : Buf) : Disk :=
  pwrite d buf BLOCK_SIZE (block_no * BLOCK_SIZE)

/-- A local array before anything is stored in it, for arrays that are filled
before they are read. -/
def fresh : Buf := fun _ => 0

/-! ## Bitmaps -/

def bitmap_test (bm : Buf) (idx : Nat) : Nat :=
  (bm (idx / 8) >>> (idx % 8)) &&& 1

def bitmap_set (bm : Buf) (idx : Nat) : Buf := fun k =>
  if k = idx / 8 then (bm (idx / 8) ||| (1 <<< (idx % 8))) % 256 else bm k

/-! ## Journal header -/

structure journal_header where
  magic : Nat
  nbytes_used : Nat
deriving DecidableEq

/-- The block image `memset(block, 0, BLOCK_SIZE); memcpy(block, jh, sizeof(*jh))`. -/
def header_block (jh : journal_header) : Buf :=
  store32 (store32 (memset fresh 0 0 BLOCK_SIZE) 0 jh.magic) 4 jh.nbytes_used

def load_journal_header (d : Disk) : Disk × journal_header :=
  let block := read_block d JOURNAL_BLOCK_IDX fresh 0
  let jh : journal_header := { magic := le32 block 0, nbytes_used := le32 block 4 }
  if jh.magic ≠ JOURNAL_MAGIC then
    let jh : journal_header :=
      { magic := JOURNAL_MAGIC, nbytes_used := SIZEOF_JOURNAL_HEADER }
    (write_block d JOURNAL_BLOCK_IDX (header_block jh), jh)
  else (d, jh)

def flush_journal_header (d : Disk) (jh : journal_header) : Disk :=
  write_block d JOURNAL_BLOCK_IDX (header_block jh)

/-! ## Appending records -/

/-- The bytes of a `struct data_record` with the given fields. -/
def data_record_bytes (block_no : Nat) (block_image : Buf) : Buf :=
  memcpy (store32 (store16 (store16 fresh 0 REC_DATA) 2 SIZEOF_DATA_RECORD) 4 block_no)
    8 block_image 0 BLOCK_SIZE

/-- The bytes of a `struct commit_record`. -/
def commit_record_bytes : Buf :=
  store16 (store16 fresh 0 REC_COMMIT) 2 SIZEOF_REC_HEADER

def append_data_record (d : Disk) (jh : journal_header) (block_no : Nat)
    (block_image : Buf) : Disk × journal_header :=
  let offset := JOURNAL_BLOCK_IDX * BLOCK_SIZE + jh.nbytes_used
  (pwrite d (data_record_bytes block_no block_image) SIZEOF_DATA_RECORD offset,
   { jh with nbytes_used := (jh.nbytes_used + SIZEOF_DATA_RECORD) % 2 ^ 32 })

def append_commit_record (d : Disk) (jh : journal_header) : Disk × journal_header :=
  let offset := JOURNAL_BLOCK_IDX * BLOCK_SIZE + jh.nbytes_used
  (pwrite d commit_record_bytes SIZEOF_REC_HEADER offset,
   { jh with nbytes_used := (jh.nbytes_used + SIZEOF_REC_HEADER) % 2 ^ 32 })

/-! ## Checkpoint (`cmd_install`) -/

/-- Size in bytes of the `pending[]` array. -/
def PENDING_BYTES : Nat := PENDING_MAX * SIZEOF_DATA_RECORD

/-- The field `pending[i].block_no`. -/
def pending_block_no (pending : Buf) (i : Nat) : Nat :=
  le32 pending (i * SIZEOF_DATA_RECORD + 4)

/-- The array `pending[i].block`. -/
def pending_block (pending : Buf) (i : Nat) : Buf := fun k =>
  pending (i * SIZEOF_DATA_RECORD + 8 + k)

/-- One of the three loops of the commit branch:
`for (i = 0; i < pending_count; i++) if (sel(pending[i].block_no)) write_block(...)`. -/
def write_pending (sel : Nat → Bool) (pending : Buf) (pending_count : Nat) (d : Disk) :
    Disk :=
  (List.range pending_count).foldl
    (fun d i =>
      if sel (pending_block_no pending i) then
        write_block d (pending_block_no pending i) (pending_block pending i)
      else d)
    d

/-- The commit branch: inode bitmap records, then data bitmap records, then the others. -/
def apply_pending (pending : Buf) (pending_count : Nat) (d : Disk) : Disk :=
  let d := write_pending (fun b => b == INODE_BMAP_IDX) pending pending_count d
  let d := write_pending (fun b => b == DATA_BMAP_IDX) pending pending_count d
  write_pending (fun b => b != INODE_BMAP_IDX && b != DATA_BMAP_IDX) pending pending_count d

/-- The variables of the scan loop of `cmd_install`. -/
structure Replay where
  disk : Disk
  pos : Nat
  pending : Buf
  pending_count : Nat

/-- Outcome of one evaluation of the loop condition and body. -/
inductive Step where
  | next (s : Replay)
  | stop (s : Replay)
  | undef

/-- One iteration of `while (pos + sizeof(struct rec_header) <= jh.nbytes_used)`.
`stop` is loop exit (condition false, or `break`), `undef` an access outside
`journal[]` or `pending[]`. -/
def replay_step (journal : Buf) (nbytes_used : Nat) (s : Replay) : Step :=
  if s.pos + SIZEOF_REC_HEADER ≤ nbytes_used then
    if JOURNAL_BYTES < s.pos + SIZEOF_REC_HEADER then .undef
    else
      let type := le16 journal s.pos
      let size := le16 journal (s.pos + 2)
      if size = 0 then .stop s
      else if type = REC_DATA then
        if JOURNAL_BYTES < s.pos + size
            ∨ PENDING_BYTES < s.pending_count * SIZEOF_DATA_RECORD + size then .undef
        else
          .next { s with
            pending := memcpy s.pending (s.pending_count * SIZEOF_DATA_RECORD) journal s.pos size
            pending_count := s.pending_count + 1
            pos := (s.pos + size) % 2 ^ 32 }
      else if type = REC_COMMIT then
        .next { s with
          disk := apply_pending s.pending s.pending_count s.disk
          pending_count := 0
          pos := (s.pos + size) % 2 ^ 32 }
      else .next { s with pos := (s.pos + size) % 2 ^ 32 }
  else .stop s

/-- The scan loop of `cmd_install`. -/
def replay_loop (journal : Buf) (nbytes_used : Nat) (s : Replay) : Option Replay :=
  match h : replay_step journal nbytes_used s with
  | .undef => none
  | .stop s' => some s'
  | .next s' => replay_loop journal nbytes_used s'
termination_by JOURNAL_BYTES - s.pos
decreasing_by
  have hsz : le16 journal (s.pos + 2) < 65536 := by unfold le16; omega
  unfold replay_step at h
  simp only [SIZEOF_REC_HEADER, JOURNAL_BYTES, BLOCK_SIZE, JOURNAL_BLOCKS] at h ⊢
  split_ifs at h <;> simp only [Step.next.injEq, reduceCtorEq] at h <;> subst h <;>
    simp only <;> omega

/-- The loop `for (i = 0; i < JOURNAL_BLOCKS; i++) read_block(fd, JOURNAL_BLOCK_IDX + i,
journal + i * BLOCK_SIZE)`. -/
def read_journal (d : Disk) : Buf :=
  (List.range JOURNAL_BLOCKS).foldl
    (fun journal i => read_block d (JOURNAL_BLOCK_IDX + i) journal (i * BLOCK_SIZE)) fresh

/-- The checkpoint.  `stack` is the content of the uninitialised `pending[]` array. -/
def cmd_install (stack : Buf) (d : Disk) : Option Disk :=
  let r := load_journal_header d
  let journal := read_journal r.1
  match replay_loop journal r.2.nbytes_used
      { disk := r.1, pos := SIZEOF_JOURNAL_HEADER, pending := stack, pending_count := 0 } with
  | none => none
  | some s =>
    some (flush_journal_header s.disk { r.2 with nbytes_used := SIZEOF_JOURNAL_HEADER })

/-! ## File creation (`cmd_create`) -/

/-- What `cmd_create` prints before it returns. -/
inductive CreateStatus where
  | no_free_inodes
  | root_directory_full
  | committed
deriving DecidableEq

/-- The in-memory copies of the metadata blocks held by `cmd_create`. -/
structure Metadata where
  inode_bitmap : Buf
  data_bitmap : Buf
  inode_blocks : Buf
  root_dir_block : Buf

/-- The pointer `buf + n`. -/
def buf_at (buf : Buf) (n : Nat) : Buf := fun k => buf (n + k)

/-- Store one byte at index `p`. -/
def store8 (b : Buf) (p v : Nat) : Buf := fun k => if k = p then v % 256 else b k

/-- The C `strncpy(dst + off, src, n)`; `src` lists the bytes of the string, which
ends before its first zero byte. -/
def strncpy (dst : Buf) (off : Nat) (src : List Nat) (n : Nat) : Buf := fun k =>
  if off ≤ k ∧ k < off + n then (src.takeWhile (fun c => c % 256 != 0)).getD (k - off) 0 % 256
  else dst k

/-- The "Read existing metadata" part of `cmd_create`. -/
def read_metadata (d : Disk) : Metadata :=
  { inode_bitmap := read_block d INODE_BMAP_IDX fresh 0
    data_bitmap := read_block d DATA_BMAP_IDX fresh 0
    inode_blocks :=
      read_block d (INODE_START_IDX + 1) (read_block d INODE_START_IDX fresh 0) BLOCK_SIZE
    root_dir_block := read_block d DATA_START_IDX fresh 0 }

/-- The loop `for (int i = 0; i < 16; i++) if (!bitmap_test(inode_bitmap, i)) ...`:
the value of `new_ino`, `none` for -1. -/
def alloc_inode (inode_bitmap : Buf) : Option Nat :=
  (List.range 16).find? (fun i => bitmap_test inode_bitmap i == 0)

/-- The "Initialize inode" part: `memset`, then `type = 1`, `links = 1`, `size = 0`. -/
def init_inode (inode_blocks : Buf) (new_ino : Nat) : Buf :=
  let p := new_ino * INODE_SIZE
  store32 (store16 (store16 (memset inode_blocks p 0 INODE_SIZE) p 1) (p + 2) 1) (p + 4) 0

/-- The directory scan: index of the first entry with `dir[i].inode == 0`. -/
def dir_free_slot (root_dir_block : Buf) : Option Nat :=
  (List.range (BLOCK_SIZE / SIZEOF_DIRENT)).find?
    (fun i => le32 root_dir_block (i * SIZEOF_DIRENT) == 0)

/-- The body of the directory loop for the free entry `i`. -/
def dir_insert (root_dir_block : Buf) (i new_ino : Nat) (name : List Nat) : Buf :=
  let p := i * SIZEOF_DIRENT
  store8 (strncpy (store32 root_dir_block p new_ino) (p + 4) name 27) (p + 4 + 27) 0

/-- The in-memory part of `cmd_create`, from "Allocate a free inode" to the directory
full check. -/
def stage_create (name : List Nat) (m : Metadata) : Except CreateStatus Metadata :=
  match alloc_inode m.inode_bitmap with
  | none => .error .no_free_inodes
  | some new_ino =>
    let inode_blocks := init_inode m.inode_blocks new_ino
    let inode_bitmap := bitmap_set m.inode_bitmap new_ino
    match dir_free_slot m.root_dir_block with
    | none => .error .root_directory_full
    | some i =>
      .ok { m with
        inode_bitmap := inode_bitmap
        inode_blocks := inode_blocks
        root_dir_block := dir_insert m.root_dir_block i new_ino name }

/-- The "Append journal records" part of `cmd_create` with the header flush. -/
def append_transaction (d : Disk) (jh : journal_header) (m : Metadata) : Disk :=
  let r := append_data_record d jh INODE_BMAP_IDX m.inode_bitmap
  let r := append_data_record r.1 r.2 DATA_BMAP_IDX m.data_bitmap
  let r := append_data_record r.1 r.2 INODE_START_IDX m.inode_blocks
  let r := append_data_record r.1 r.2 (INODE_START_IDX + 1) (buf_at m.inode_blocks BLOCK_SIZE)
  let r := append_data_record r.1 r.2 DATA_START_IDX m.root_dir_block
  let r := append_commit_record r.1 r.2
  flush_journal_header r.1 r.2

/-- The part of `cmd_create` after `load_journal_header(fd, &jh)`: read the metadata,
stage the new file, and either report the failure or append the transaction. -/
def create_with (name : List Nat) (d : Disk) (jh : journal_header) : Disk × CreateStatus :=
  match stage_create name (read_metadata d) with
  | .error e => (d, e)
  | .ok m => (append_transaction d jh m, .committed)

/-- The body of `cmd_create` after the initial `cmd_install()`. -/
def create_body (name : List Nat) (d : Disk) : Disk × CreateStatus :=
  create_with name (load_journal_header d).1 (load_journal_header d).2

/-- The command `create name`; `stack` is passed on to the checkpoint it starts with. -/
def cmd_create (stack : Buf) (name : List Nat) (d : Disk) : Option (Disk × CreateStatus) :=
  match cmd_install stack d with
  | none => none
  | some d => some (create_body name d)

/-! ## Auxiliary definitions used in the statements -/

/-- The header stored in the first journal block of the image. -/
def disk_header (d : Disk) : journal_header :=
  { magic := le32 d.data 4096, nbytes_used := le32 d.data 4100 }

/-- The header record of a freshly initialised or truncated journal. -/
def empty_header : journal_header :=
  { magic := JOURNAL_MAGIC, nbytes_used := SIZEOF_JOURNAL_HEADER }

/-- The scan starts at offset 8. -/
def replay_init (stack : Buf) (d : Disk) : Replay :=
  { disk := d, pos := SIZEOF_JOURNAL_HEADER, pending := stack, pending_count := 0 }

/-- An image of zero bytes on which nothing has been written yet. -/
def zero_disk : Disk := { data := fun _ => 0, writes := [] }

/-- The image `zero_disk` after its first checkpoint. -/
def clean_disk : Disk :=
  flush_journal_header (write_block zero_disk JOURNAL_BLOCK_IDX (header_block empty_header))
    empty_header

/-- The inode bitmap in which exactly the bits 0 and 1 are set. -/
def bitmap_01 : Buf := fun k => if k = 0 then 3 else 0

/-- The block writes, in log order, of the pending records whose destination
satisfies `sel`. -/
def pending_writes (sel : Nat → Bool) (pending : Buf) (pending_count : Nat) :
    List (Nat × List Nat) :=
  ((List.range pending_count).filter (fun i => sel (pending_block_no pending i))).map
    (fun i => (pending_block_no pending i * BLOCK_SIZE, bytes (pending_block pending i) BLOCK_SIZE))

/-- A journal buffer that holds one commit record at offset 8. -/
def commit_only_journal : Buf := memcpy fresh 8 commit_record_bytes 0 4

/-- A `pending[]` array whose first three entries go to blocks 21, 18 and 17. -/
def pending_sample : Buf :=
  store32 (store32 (store32 fresh 4 21) (4104 + 4) 18) (2 * 4104 + 4) 17

/-- Scan state at offset 8 with the three records of `pending_sample` pending. -/
def replay_sample : Replay :=
  { disk := zero_disk, pos := 8, pending := pending_sample, pending_count := 3 }

/-- The bytes of the file name `a.txt`. -/
def name_a : List Nat := [97, 46, 116, 120, 116]

/-- An image with a valid journal header with 12 bytes in use, one commit record at
journal offset 8 (an empty committed transaction), and inode bitmap bits 0..15 set. -/
def full_disk : Disk :=
  pwrite
    (pwrite (flush_journal_header zero_disk { magic := JOURNAL_MAGIC, nbytes_used := 12 })
      commit_record_bytes 4 (JOURNAL_BLOCK_IDX * BLOCK_SIZE + 8))
    (fun _ => 255) 2 (INODE_BMAP_IDX * BLOCK_SIZE)

/-- The checkpointed image `clean_disk` with inode bitmap bits 0..15 set. -/
def full_clean_disk : Disk := pwrite clean_disk (fun _ => 255) 2 (INODE_BMAP_IDX * BLOCK_SIZE)

/-- The bytes of the file name `b.txt`. -/
def name_b : List Nat := [98, 46, 116, 120, 116]

/-- In-memory metadata with an all-zero inode bitmap and an all-zero root directory. -/
def zero_metadata : Metadata :=
  { inode_bitmap := fresh, data_bitmap := fresh, inode_blocks := fresh, root_dir_block := fresh }

/-- The metadata staged by `create a.txt` on `zero_metadata`. -/
def metadata_a : Metadata :=
  { zero_metadata with
    inode_bitmap := bitmap_set fresh 0
    inode_blocks := init_inode fresh 0
    root_dir_block := dir_insert fresh 0 0 name_a }

/-- The metadata staged by `create b.txt` on `metadata_a`. -/
def metadata_ab : Metadata :=
  { metadata_a with
    inode_bitmap := bitmap_set (bitmap_set fresh 0) 1
    inode_blocks := init_inode (init_inode fresh 0) 1
    root_dir_block := dir_insert (dir_insert fresh 0 0 name_a) 0 1 name_b }

/-- Two scan states of two runs of the checkpoint that read journals equal below `U`:
same offset, same count, images equal at the addresses in `P`, and the same pending
records as long as the scan has not passed `U`. -/
def replay_rel (P : Nat → Prop) (U : Nat) (s s' : Replay) : Prop :=
  s.pos = s'.pos ∧ s.pending_count = s'.pending_count
    ∧ (∀ a, P a → s.disk.data a = s'.disk.data a)
    ∧ (s.pos + 4 ≤ U → s.pending = s'.pending)

/-- Two iterations end the same way, in related states. -/
def step_rel (P : Nat → Prop) (U : Nat) : Step → Step → Prop
  | .undef, .undef => True
  | .stop t, .stop t' => ∀ a, P a → t.disk.data a = t'.disk.data a
  | .next t, .next t' => replay_rel P U t t'
  | _, _ => False

/-- Two scans end the same way, with images equal at the addresses in `P`. -/
def scan_rel (P : Nat → Prop) : Option Replay → Option Replay → Prop
  | none, none => True
  | some t, some t' => ∀ a, P a → t.disk.data a = t'.disk.data a
  | _, _ => False

/-- The byte address lies outside the journal region (blocks 1..16). -/
def outside_journal (a : Nat) : Prop :=
  a < JOURNAL_BLOCK_IDX * BLOCK_SIZE ∨ (JOURNAL_BLOCK_IDX + JOURNAL_BLOCKS) * BLOCK_SIZE ≤ a

/-- Two checkpoints end the same way, with images equal outside the journal region. -/
def same_outside_journal : Option Disk → Option Disk → Prop
  | none, none => True
  | some x, some y => ∀ a, outside_journal a → x.data a = y.data a
  | _, _ => False

/-- The calls of `append_data_record` for the records `(block_no, block_image)` of a
transaction, in order. -/
def append_records (d : Disk) (jh : journal_header) : List (Nat × Buf) → Disk × journal_header
  | [] => (d, jh)
  | r :: rs =>
    append_records (append_data_record d jh r.1 r.2).1 (append_data_record d jh r.1 r.2).2 rs

/-- The image after a transaction has been appended from the header stored on disk
and before `flush_journal_header` is called. -/
def append_unflushed (d : Disk) (recs : List (Nat × Buf)) : Disk :=
  (append_commit_record (append_records d (disk_header d) recs).1
    (append_records d (disk_header d) recs).2).1

/-- The buffer `j` holds, from index `p` on, the data records `(block_no, block_image)`
of the list, back to back. -/
def holds_records (j : Buf) : Nat → List (Nat × Buf) → Prop
  | _, [] => True
  | p, r :: rs =>
    (∀ k, k < SIZEOF_DATA_RECORD → j (p + k) = data_record_bytes r.1 r.2 k)
      ∧ holds_records j (p + SIZEOF_DATA_RECORD) rs

/-- The array `pending[]` after `n` data records of 4104 bytes, read from index `pos`
of the journal on, have been copied to the entries `pc`, `pc + 1`, ... -/
def copy_records (j : Buf) : Nat → Nat → Nat → Buf → Buf
  | 0, _, _, pending => pending
  | n + 1, pos, pc, pending =>
    copy_records j n (pos + SIZEOF_DATA_RECORD) (pc + 1)
      (memcpy pending (pc * SIZEOF_DATA_RECORD) j pos SIZEOF_DATA_RECORD)

/-- A block image of 4096 bytes 255. -/
def payload_ff : Buf := fun _ => 255

/-- An image whose journal holds one committed transaction: header with 4116 bytes in
use, a data record for block 17 at offset 8, a commit record at offset 4112. -/
def committed_disk : Disk :=
  pwrite
    (pwrite (flush_journal_header zero_disk { magic := JOURNAL_MAGIC, nbytes_used := 4116 })
      (data_record_bytes 17 payload_ff) 4104 4104)
    commit_record_bytes 4 8208

/-- The scan loop of `cmd_install` run for at most `n` evaluations of the loop
condition: `none` when the loop is still running after them, otherwise the outcome. -/
def replay_fuel (journal : Buf) (nbytes_used : Nat) : Nat → Replay → Option (Option Replay)
  | 0, _ => none
  | n + 1, s =>
    match replay_step journal nbytes_used s with
    | .undef => some none
    | .stop t => some (some t)
    | .next t => replay_fuel journal nbytes_used n t

/-- The states of the loop variables at the loop head during the scan that starts in
state `s0`. -/
inductive Scanned (journal : Buf) (nbytes_used : Nat) (s0 : Replay) : Replay → Prop where
  | start : Scanned journal nbytes_used s0 s0
  | step {s t : Replay} : Scanned journal nbytes_used s0 s →
      replay_step journal nbytes_used s = .next t → Scanned journal nbytes_used s0 t

/-- The metadata staged by `create a.txt` on the image `clean_disk`. -/
def staged_a : Metadata :=
  { read_metadata clean_disk with
    inode_bitmap := bitmap_set (read_metadata clean_disk).inode_bitmap 0
    inode_blocks := init_inode (read_metadata clean_disk).inode_blocks 0
    root_dir_block := dir_insert (read_metadata clean_disk).root_dir_block 0 0 name_a }

/-- The image after `create a.txt` on `zero_disk`. -/
def created_disk : Disk := append_transaction clean_disk empty_header staged_a

/-- The bytes of a C string: those before its first zero byte. -/
def cstr (s : List Nat) : List Nat := s.takeWhile (fun c => c % 256 != 0)

/-- The test `strcmp(a, b) == 0`. -/
def streq (a b : List Nat) : Bool := cstr a == cstr b

/-- The bytes of the string `create`. -/
def str_create : List Nat := [99, 114, 101, 97, 116, 101]

/-- The bytes of the string `install`. -/
def str_install : List Nat := [105, 110, 115, 116, 97, 108, 108]

/-- The bytes of the string `journal`, the program name. -/
def str_journal : List Nat := [106, 111, 117, 114, 110, 97, 108]

/-- The function `main`: the image after the command and the returned exit status;
`argc` is the length of `argv`. -/
def main (stack : Buf) (argv : List (List Nat)) (d : Disk) : Option (Disk × Nat) :=
  if argv.length < 2 then some (d, 1)
  else if streq (argv.getD 1 []) str_create then
    if argv.length ≠ 3 then some (d, 1)
    else (cmd_create stack (argv.getD 2 []) d).map (fun r => (r.1, 0))
  else if streq (argv.getD 1 []) str_install then
    (cmd_install stack d).map (fun d' => (d', 0))
  else some (d, 1)

/-- A commit record header that declares the size 100. -/
def long_commit_bytes : Buf := store16 (store16 fresh 0 REC_COMMIT) 2 100

/-- An image whose journal has 4116 bytes in use, a data record for block 17 at
offset 8, and at offset 4112 a record of type Commit whose declared size 100 runs
past the bytes in use. -/
def long_commit_disk : Disk :=
  pwrite
    (pwrite (flush_journal_header zero_disk { magic := JOURNAL_MAGIC, nbytes_used := 4116 })
      (data_record_bytes 17 payload_ff) 4104 4104)
    long_commit_bytes 4 8208

/-- The scan state at the record at offset 4112 of `long_commit_disk`, with nothing
pending. -/
def long_commit_state : Replay :=
  { disk := long_commit_disk, pos := 4112, pending := fresh, pending_count := 0 }

/-- The block writes issued by the commit branch in scan state `s`: the pending
records for block 17, then those for block 18, then the others, each in log order. -/
def commit_writes (s : Replay) : List (Nat × List Nat) :=
  pending_writes (fun b => b == INODE_BMAP_IDX) s.pending s.pending_count
    ++ pending_writes (fun b => b == DATA_BMAP_IDX) s.pending s.pending_count
    ++ pending_writes (fun b => b != INODE_BMAP_IDX && b != DATA_BMAP_IDX) s.pending
        s.pending_count

/-- The scan state of `committed_disk` at its commit record, at offset 4112, with the
data record pending. -/
def committed_state (stack : Buf) : Replay :=
  { disk := committed_disk, pos := 4112,
    pending := copy_records (read_journal committed_disk) 1 8 0 stack, pending_count := 1 }

/-! ## Basic facts -/

theorem le16_lt (b : Buf) (p : Nat) : le16 b p < 65536 := by
  unfold le16; omega

theorem le32_lt (b : Buf) (p : Nat) : le32 b p < 4294967296 := by
  unfold le32; omega

theorem replay_step_next {journal : Buf} {nbytes_used : Nat} {s s' : Replay}
    (h : replay_step journal nbytes_used s = .next s') :
    s.pos + 4 ≤ JOURNAL_BYTES ∧ s.pos + 4 ≤ nbytes_used
      ∧ le16 journal (s.pos + 2) ≠ 0 ∧ s'.pos = s.pos + le16 journal (s.pos + 2) := by
  have hsz := le16_lt journal (s.pos + 2)
  unfold replay_step at h
  simp only [SIZEOF_REC_HEADER, JOURNAL_BYTES, BLOCK_SIZE, JOURNAL_BLOCKS] at h ⊢
  split_ifs at h <;> simp only [Step.next.injEq, reduceCtorEq] at h <;> subst h <;>
    simp only <;> omega


@[simp] theorem BLOCK_SIZE_eq : BLOCK_SIZE = 4096 := rfl
@[simp] theorem INODE_SIZE_eq : INODE_SIZE = 128 := rfl
@[simp] theorem JOURNAL_BLOCK_IDX_eq : JOURNAL_BLOCK_IDX = 1 := rfl
@[simp] theorem JOURNAL_BLOCKS_eq : JOURNAL_BLOCKS = 16 := rfl
@[simp] theorem INODE_BMAP_IDX_eq : INODE_BMAP_IDX = 17 := rfl
@[simp] theorem DATA_BMAP_IDX_eq : DATA_BMAP_IDX = 18 := rfl
@[simp] theorem INODE_START_IDX_eq : INODE_START_IDX = 19 := rfl
@[simp] theorem DATA_START_IDX_eq : DATA_START_IDX = 21 := rfl
@[simp] theorem JOURNAL_MAGIC_eq : JOURNAL_MAGIC = 1246907980 := rfl
@[simp] theorem REC_DATA_eq : REC_DATA = 1 := rfl
@[simp] theorem REC_COMMIT_eq : REC_COMMIT = 2 := rfl
@[simp] theorem SIZEOF_JOURNAL_HEADER_eq : SIZEOF_JOURNAL_HEADER = 8 := rfl
@[simp] theorem SIZEOF_REC_HEADER_eq : SIZEOF_REC_HEADER = 4 := rfl
@[simp] theorem SIZEOF_DATA_RECORD_eq : SIZEOF_DATA_RECORD = 4104 := rfl
@[simp] theorem SIZEOF_DIRENT_eq : SIZEOF_DIRENT = 32 := rfl
@[simp] theorem PENDING_MAX_eq : PENDING_MAX = 64 := rfl
@[simp] theorem JOURNAL_BYTES_eq : JOURNAL_BYTES = 65536 := rfl
@[simp] theorem PENDING_BYTES_eq : PENDING_BYTES = 262656 := rfl

@[simp] theorem fresh_apply (k : Nat) : fresh k = 0 := rfl

@[simp] theorem memset_apply (dst : Buf) (off c n k : Nat) :
    memset dst off c n k = if off ≤ k ∧ k < off + n then c else dst k := rfl

@[simp] theorem memcpy_apply (dst : Buf) (doff : Nat) (src : Buf) (soff n k : Nat) :
    memcpy dst doff src soff n k
      = if doff ≤ k ∧ k < doff + n then src (soff + (k - doff)) else dst k := rfl

@[simp] theorem store16_apply (b : Buf) (p v k : Nat) :
    store16 b p v k = if k = p then v % 256 else if k = p + 1 then v / 256 % 256 else b k :=
  rfl

@[simp] theorem store32_apply (b : Buf) (p v k : Nat) :
    store32 b p v k = if k = p then v % 256 else if k = p + 1 then v / 256 % 256
      else if k = p + 2 then v / 65536 % 256 else if k = p + 3 then v / 16777216 % 256
      else b k := rfl

@[simp] theorem store8_apply (b : Buf) (p v k : Nat) :
    store8 b p v k = if k = p then v % 256 else b k := rfl

@[simp] theorem buf_at_apply (b : Buf) (n k : Nat) : buf_at b n k = b (n + k) := rfl

@[simp] theorem pwrite_data (d : Disk) (buf : Buf) (n off a : Nat) :
    (pwrite d buf n off).data a
      = if off ≤ a ∧ a < off + n then buf (a - off) else d.data a := rfl

@[simp] theorem pwrite_writes (d : Disk) (buf : Buf) (n off : Nat) :
    (pwrite d buf n off).writes = d.writes ++ [(off, bytes buf n)] := rfl

theorem write_block_data (d : Disk) (b : Nat) (buf : Buf) (a : Nat) :
    (write_block d b buf).data a
      = if b * 4096 ≤ a ∧ a < b * 4096 + 4096 then buf (a - b * 4096) else d.data a := rfl

theorem write_block_writes (d : Disk) (b : Nat) (buf : Buf) :
    (write_block d b buf).writes = d.writes ++ [(b * 4096, bytes buf 4096)] := rfl

theorem read_block_apply (d : Disk) (b : Nat) (buf : Buf) (off k : Nat) :
    read_block d b buf off k
      = if off ≤ k ∧ k < off + 4096 then d.data (b * 4096 + (k - off)) else buf k := rfl

theorem read_journal_aux (d : Disk) (n k : Nat) :
    (List.range n).foldl
        (fun journal i => read_block d (1 + i) journal (i * 4096)) fresh k
      = if k < n * 4096 then d.data (4096 + k) else 0 := by
  induction n generalizing k with
  | zero => simp
  | succ n ih =>
    rw [List.range_succ, List.foldl_append]
    simp only [List.foldl_cons, List.foldl_nil, read_block_apply, ih]
    split_ifs <;> first | rfl | omega | (congr 1; omega)

/-- The journal buffer holds the sixteen journal blocks of the image. -/
theorem read_journal_apply (d : Disk) (k : Nat) :
    read_journal d k = if k < 65536 then d.data (4096 + k) else 0 := by
  simp only [read_journal, JOURNAL_BLOCKS_eq, JOURNAL_BLOCK_IDX_eq, BLOCK_SIZE_eq,
    read_journal_aux]

theorem le32_header_block_magic (jh : journal_header) :
    le32 (header_block jh) 0 = jh.magic % 4294967296 := by
  simp [le32, header_block]; omega

theorem le32_header_block_used (jh : journal_header) :
    le32 (header_block jh) 4 = jh.nbytes_used % 4294967296 := by
  simp [le32, header_block]; omega

theorem header_block_zero (jh : journal_header) (k : Nat) (hk : 8 ≤ k) :
    header_block jh k = 0 := by
  simp only [header_block, store32_apply, memset_apply, fresh_apply]
  split_ifs <;> first | rfl | omega

theorem replay_loop_stop {journal : Buf} {nbytes_used : Nat} {s s' : Replay}
    (h : replay_step journal nbytes_used s = .stop s') :
    replay_loop journal nbytes_used s = some s' := by
  rw [replay_loop]; split <;> simp_all

theorem replay_loop_undef {journal : Buf} {nbytes_used : Nat} {s : Replay}
    (h : replay_step journal nbytes_used s = .undef) :
    replay_loop journal nbytes_used s = none := by
  rw [replay_loop]; split <;> simp_all

theorem replay_loop_next {journal : Buf} {nbytes_used : Nat} {s s' : Replay}
    (h : replay_step journal nbytes_used s = .next s') :
    replay_loop journal nbytes_used s = replay_loop journal nbytes_used s' := by
  rw [replay_loop]; split <;> simp_all

theorem load_journal_header_eq (d : Disk) :
    load_journal_header d
      = if (disk_header d).magic ≠ JOURNAL_MAGIC then
          (write_block d JOURNAL_BLOCK_IDX (header_block empty_header), empty_header)
        else (d, disk_header d) := by
  simp [load_journal_header, disk_header, empty_header, le32, read_block_apply]

theorem load_journal_header_magic (d : Disk) :
    (load_journal_header d).2.magic = JOURNAL_MAGIC := by
  rw [load_journal_header_eq]
  split_ifs with h
  · rfl
  · simpa using h

theorem disk_header_flush (d : Disk) (jh : journal_header)
    (hm : jh.magic < 4294967296) (hu : jh.nbytes_used < 4294967296) :
    disk_header (flush_journal_header d jh) = jh := by
  have h0 := le32_header_block_magic jh
  have h4 := le32_header_block_used jh
  simp only [le32] at h0 h4
  cases jh with
  | mk m u =>
    simp only [disk_header, flush_journal_header, le32, write_block_data, JOURNAL_BLOCK_IDX_eq,
      journal_header.mk.injEq]
    simp only at h0 h4 hm hu
    norm_num at h0 h4 ⊢
    omega

theorem disk_header_flush_empty (d : Disk) :
    disk_header (flush_journal_header d empty_header) = empty_header :=
  disk_header_flush d empty_header (by simp [empty_header]) (by simp [empty_header])

theorem flush_data_outside (d : Disk) (jh : journal_header) (a : Nat)
    (ha : a < 4096 ∨ 8192 ≤ a) : (flush_journal_header d jh).data a = d.data a := by
  simp only [flush_journal_header, write_block_data, JOURNAL_BLOCK_IDX_eq]
  rw [if_neg (by omega)]

theorem flush_data_inside (d : Disk) (jh : journal_header) (a : Nat)
    (ha : 4096 ≤ a ∧ a < 8192) :
    (flush_journal_header d jh).data a = header_block jh (a - 4096) := by
  simp only [flush_journal_header, write_block_data, JOURNAL_BLOCK_IDX_eq]
  rw [if_pos (by omega)]

/-- Flushing the same header twice in a row stores the same bytes as flushing it once. -/
theorem flush_flush_data (d : Disk) (jh : journal_header) :
    (flush_journal_header (flush_journal_header d jh) jh).data
      = (flush_journal_header d jh).data := by
  funext a
  simp only [flush_journal_header, write_block_data, JOURNAL_BLOCK_IDX_eq]
  split_ifs <;> rfl

theorem cmd_install_eq (stack : Buf) (d : Disk) :
    cmd_install stack d
      = (replay_loop (read_journal (load_journal_header d).1)
            (load_journal_header d).2.nbytes_used
            (replay_init stack (load_journal_header d).1)).map
          (fun s => flush_journal_header s.disk empty_header) := by
  have hm := load_journal_header_magic d
  unfold cmd_install replay_init
  simp only
  split <;> rename_i h <;> rw [h] <;> simp [empty_header, hm]

/-- With fewer than 12 bytes in use the scan loop is not entered. -/
theorem replay_loop_short (journal : Buf) (n : Nat) (hn : n < 12) (stack : Buf) (d : Disk) :
    replay_loop journal n (replay_init stack d) = some (replay_init stack d) := by
  apply replay_loop_stop
  simp only [replay_step, replay_init, SIZEOF_REC_HEADER_eq, SIZEOF_JOURNAL_HEADER_eq]
  rw [if_neg (by omega)]

theorem cmd_install_of_uninit (stack : Buf) (d : Disk)
    (h : (disk_header d).magic ≠ JOURNAL_MAGIC) :
    cmd_install stack d
      = some (flush_journal_header
          (write_block d JOURNAL_BLOCK_IDX (header_block empty_header)) empty_header) := by
  rw [cmd_install_eq, load_journal_header_eq, if_pos h]
  simp only [empty_header, SIZEOF_JOURNAL_HEADER_eq]
  rw [replay_loop_short _ 8 (by decide)]
  rfl

theorem cmd_install_of_short (stack : Buf) (d : Disk)
    (h : (disk_header d).magic = JOURNAL_MAGIC) (hn : (disk_header d).nbytes_used < 12) :
    cmd_install stack d = some (flush_journal_header d empty_header) := by
  rw [cmd_install_eq, load_journal_header_eq, if_neg (by simpa using h)]
  simp only
  rw [replay_loop_short _ _ hn]
  rfl

theorem zero_disk_magic : (disk_header zero_disk).magic ≠ JOURNAL_MAGIC := by
  simp [disk_header, zero_disk, le32]

theorem cmd_install_zero_disk (stack : Buf) : cmd_install stack zero_disk = some clean_disk :=
  cmd_install_of_uninit stack zero_disk zero_disk_magic

/-- Every completed checkpoint is a header flush of the disk the scan ended with. -/
theorem cmd_install_some {stack : Buf} {d d' : Disk} (h : cmd_install stack d = some d') :
    ∃ s, replay_loop (read_journal (load_journal_header d).1)
          (load_journal_header d).2.nbytes_used
          (replay_init stack (load_journal_header d).1) = some s
      ∧ d' = flush_journal_header s.disk empty_header := by
  rw [cmd_install_eq] at h
  cases hl : replay_loop (read_journal (load_journal_header d).1)
      (load_journal_header d).2.nbytes_used (replay_init stack (load_journal_header d).1) with
  | none => rw [hl] at h; simp at h
  | some s =>
    rw [hl] at h
    simp only [Option.map_some', Option.some.injEq] at h
    exact ⟨s, rfl, h.symm⟩

theorem bitmap_test_cases (bm : Buf) (idx : Nat) :
    bitmap_test bm idx = 0 ∨ bitmap_test bm idx = 1 := by
  unfold bitmap_test
  rw [Nat.and_one_is_mod]
  omega

theorem find_range_least (p : Nat → Bool) (n : Nat) (h : ∃ i, i < n ∧ p i = true) :
    ∃ i, (List.range n).find? p = some i ∧ i < n ∧ p i = true
      ∧ ∀ j, j < i → p j = false := by
  induction n with
  | zero => obtain ⟨i, hi, -⟩ := h; omega
  | succ n ih =>
    rw [List.range_succ, List.find?_append]
    by_cases hex : ∃ i, i < n ∧ p i = true
    · obtain ⟨i, hf, hi, hp, hl⟩ := ih hex
      exact ⟨i, by simp [hf], by omega, hp, hl⟩
    · have hall : ∀ j, j < n → p j = false := by
        intro j hj
        by_contra hc
        exact hex ⟨j, hj, by simpa using hc⟩
      have hnone : (List.range n).find? p = none := by
        rw [List.find?_eq_none]
        intro x hx
        simp [hall x (List.mem_range.mp hx)]
      obtain ⟨i, hi, hp⟩ := h
      have hin : i = n := by
        by_contra hne
        have := hall i (by omega)
        simp [hp] at this
      subst hin
      exact ⟨i, by simp [hnone, hp], by omega, hp, hall⟩

theorem find_range_none (p : Nat → Bool) (n : Nat) (h : ∀ i, i < n → p i = false) :
    (List.range n).find? p = none := by
  rw [List.find?_eq_none]
  intro x hx
  simp [h x (List.mem_range.mp hx)]

theorem alloc_inode_bitmap_01 : alloc_inode bitmap_01 = some 2 := by
  decide

theorem write_pending_writes (sel : Nat → Bool) (pending : Buf) (n : Nat) (d : Disk) :
    (write_pending sel pending n d).writes = d.writes ++ pending_writes sel pending n := by
  induction n with
  | zero => simp [write_pending, pending_writes]
  | succ n ih =>
    unfold write_pending pending_writes at *
    rw [List.range_succ, List.foldl_append, List.filter_append, List.map_append,
      ← List.append_assoc, ← ih]
    simp only [List.foldl_cons, List.foldl_nil]
    by_cases hs : sel (pending_block_no pending n) = true
    · simp [hs, write_block_writes]
    · simp [hs]

theorem apply_pending_writes (pending : Buf) (n : Nat) (d : Disk) :
    (apply_pending pending n d).writes
      = d.writes ++ pending_writes (fun b => b == INODE_BMAP_IDX) pending n
          ++ pending_writes (fun b => b == DATA_BMAP_IDX) pending n
          ++ pending_writes (fun b => b != INODE_BMAP_IDX && b != DATA_BMAP_IDX) pending n := by
  simp only [apply_pending, write_pending_writes]

theorem mem_pending_writes {sel : Nat → Bool} {pending : Buf} {n : Nat} {w : Nat × List Nat}
    (h : w ∈ pending_writes sel pending n) :
    ∃ i, i < n ∧ sel (pending_block_no pending i) = true
      ∧ w = (pending_block_no pending i * 4096, bytes (pending_block pending i) 4096) := by
  simp only [pending_writes, List.mem_map, List.mem_filter, List.mem_range] at h
  obtain ⟨i, ⟨hi, hs⟩, rfl⟩ := h
  exact ⟨i, hi, hs, rfl⟩

theorem load_journal_header_flush_empty (d : Disk) :
    load_journal_header (flush_journal_header d empty_header)
      = (flush_journal_header d empty_header, empty_header) := by
  rw [load_journal_header_eq, disk_header_flush_empty, if_neg (by simp [empty_header])]

theorem create_body_flush_empty (name : List Nat) (d : Disk) :
    create_body name (flush_journal_header d empty_header)
      = create_with name (flush_journal_header d empty_header) empty_header := by
  unfold create_body
  rw [load_journal_header_flush_empty]

theorem cmd_create_of_install {stack : Buf} {d d1 : Disk} (name : List Nat)
    (h : cmd_install stack d = some d1) :
    cmd_create stack name d = some (create_with name d1 empty_header) := by
  obtain ⟨s, -, rfl⟩ := cmd_install_some h
  unfold cmd_create
  rw [h, ← create_body_flush_empty]

theorem cmd_create_none {stack : Buf} {d : Disk} (name : List Nat)
    (h : cmd_install stack d = none) : cmd_create stack name d = none := by
  unfold cmd_create
  rw [h]

@[simp] theorem bytes_length (buf : Buf) (n : Nat) : (bytes buf n).length = n := by
  simp [bytes]

theorem append_transaction_eq (d : Disk) (mg : Nat) (m : Metadata) :
    append_transaction d { magic := mg, nbytes_used := 8 } m
      = flush_journal_header
          (pwrite (pwrite (pwrite (pwrite (pwrite (pwrite d
            (data_record_bytes 17 m.inode_bitmap) 4104 4104)
            (data_record_bytes 18 m.data_bitmap) 4104 8208)
            (data_record_bytes 19 m.inode_blocks) 4104 12312)
            (data_record_bytes 20 (buf_at m.inode_blocks 4096)) 4104 16416)
            (data_record_bytes 21 m.root_dir_block) 4104 20520)
            commit_record_bytes 4 24624)
          { magic := mg, nbytes_used := 20532 } := by
  simp [append_transaction, append_data_record, append_commit_record]

theorem append_transaction_data_outside (d : Disk) (mg : Nat) (m : Metadata) (a : Nat)
    (ha : a < 4096 ∨ 69632 ≤ a) :
    (append_transaction d { magic := mg, nbytes_used := 8 } m).data a = d.data a := by
  rw [append_transaction_eq, flush_data_outside _ _ _ (by omega)]
  simp only [pwrite_data]
  repeat rw [if_neg (by omega)]

theorem append_transaction_writes (d : Disk) (mg : Nat) (m : Metadata) :
    (append_transaction d { magic := mg, nbytes_used := 8 } m).writes
      = d.writes ++
        [(4104, bytes (data_record_bytes 17 m.inode_bitmap) 4104),
         (8208, bytes (data_record_bytes 18 m.data_bitmap) 4104),
         (12312, bytes (data_record_bytes 19 m.inode_blocks) 4104),
         (16416, bytes (data_record_bytes 20 (buf_at m.inode_blocks 4096)) 4104),
         (20520, bytes (data_record_bytes 21 m.root_dir_block) 4104),
         (24624, bytes commit_record_bytes 4),
         (4096, bytes (header_block { magic := mg, nbytes_used := 20532 }) 4096)] := by
  rw [append_transaction_eq]
  simp [flush_journal_header, write_block_writes]

/-- Everything `create_with` writes on a journal with 8 bytes in use lies in the
journal region, and no byte outside the region changes. -/
theorem create_with_frame (name : List Nat) (d : Disk) :
    (∀ a, a < 4096 ∨ 69632 ≤ a → (create_with name d empty_header).1.data a = d.data a)
      ∧ ∃ ws, (create_with name d empty_header).1.writes = d.writes ++ ws
          ∧ ∀ w ∈ ws, 4096 ≤ w.1 ∧ w.1 + w.2.length ≤ 69632 := by
  unfold create_with
  split
  · exact ⟨fun _ _ => rfl, [], by simp, by simp⟩
  · refine ⟨fun a ha => append_transaction_data_outside _ _ _ a ha, _,
      append_transaction_writes _ _ _, ?_⟩
    intro w hw
    simp only [List.mem_cons, List.mem_singleton, List.not_mem_nil, or_false] at hw
    rcases hw with rfl | rfl | rfl | rfl | rfl | rfl | rfl <;> simp


theorem read_metadata_congr {d1 d2 : Disk} (h : d1.data = d2.data) :
    read_metadata d1 = read_metadata d2 := by
  unfold read_metadata read_block
  rw [h]

theorem stage_create_no_free_inodes (name : List Nat) (m : Metadata)
    (h : ∀ i, i < 16 → bitmap_test m.inode_bitmap i = 1) :
    stage_create name m = .error .no_free_inodes := by
  have hn : alloc_inode m.inode_bitmap = none :=
    find_range_none _ 16 (fun i hi => by simp [h i hi])
  unfold stage_create
  rw [hn]

theorem stage_create_directory_full (name : List Nat) (m : Metadata)
    (h : ∀ i, i < 128 → le32 m.root_dir_block (i * 32) ≠ 0) :
    stage_create name m = .error .no_free_inodes
      ∨ stage_create name m = .error .root_directory_full := by
  have hn : dir_free_slot m.root_dir_block = none :=
    find_range_none _ 128 (fun i hi => by simpa using h i hi)
  unfold stage_create
  cases alloc_inode m.inode_bitmap with
  | none => exact Or.inl rfl
  | some i =>
    right
    simp only
    rw [hn]

theorem disk_header_full_disk :
    disk_header full_disk = { magic := JOURNAL_MAGIC, nbytes_used := 12 } := by
  simp [disk_header, full_disk, le32, flush_journal_header, write_block_data, header_block]

@[simp] theorem apply_pending_zero (pending : Buf) (d : Disk) :
    apply_pending pending 0 d = d := by
  simp [apply_pending, write_pending]

theorem full_disk_journal_type : le16 (read_journal full_disk) 8 = 2 := by
  simp [le16, read_journal_apply, full_disk, commit_record_bytes, flush_journal_header,
    write_block_data]

theorem full_disk_journal_size : le16 (read_journal full_disk) 10 = 4 := by
  simp [le16, read_journal_apply, full_disk, commit_record_bytes, flush_journal_header,
    write_block_data]

theorem replay_loop_full_disk (stack : Buf) :
    replay_loop (read_journal full_disk) 12 (replay_init stack full_disk)
      = some { disk := full_disk, pos := 12, pending := stack, pending_count := 0 } := by
  have h1 : replay_step (read_journal full_disk) 12 (replay_init stack full_disk)
      = .next { disk := full_disk, pos := 12, pending := stack, pending_count := 0 } := by
    simp [replay_step, replay_init, full_disk_journal_type, full_disk_journal_size]
  rw [replay_loop_next h1]
  apply replay_loop_stop
  simp [replay_step]

theorem cmd_install_full_disk (stack : Buf) :
    cmd_install stack full_disk = some (flush_journal_header full_disk empty_header) := by
  rw [cmd_install_eq, load_journal_header_eq, disk_header_full_disk, if_neg (by simp)]
  simp only
  rw [replay_loop_full_disk]
  rfl

theorem create_with_error {name : List Nat} {d : Disk} {e : CreateStatus}
    (jh : journal_header) (h : stage_create name (read_metadata d) = .error e) :
    create_with name d jh = (d, e) := by
  unfold create_with
  rw [h]

theorem full_disk_bitmap (i : Nat) (hi : i < 16) :
    bitmap_test (read_block full_disk INODE_BMAP_IDX fresh 0) i = 1 := by
  interval_cases i <;> decide

theorem disk_header_of_clean {d : Disk}
    (hclean : ∀ k, k < 4096 → d.data (4096 + k) = header_block empty_header k) :
    disk_header d = empty_header := by
  have h0 := hclean 0 (by omega)
  have h1 := hclean 1 (by omega)
  have h2 := hclean 2 (by omega)
  have h3 := hclean 3 (by omega)
  have h4 := hclean 4 (by omega)
  have h5 := hclean 5 (by omega)
  have h6 := hclean 6 (by omega)
  have h7 := hclean 7 (by omega)
  simp only [Nat.add_zero, Nat.reduceAdd] at h0 h1 h2 h3 h4 h5 h6 h7
  simp only [disk_header, le32, Nat.reduceAdd, h0, h1, h2, h3, h4, h5, h6, h7]
  simp [header_block, empty_header]

theorem flush_data_of_clean {d : Disk}
    (hclean : ∀ k, k < 4096 → d.data (4096 + k) = header_block empty_header k) :
    (flush_journal_header d empty_header).data = d.data := by
  funext a
  by_cases ha : 4096 ≤ a ∧ a < 8192
  · have e : 4096 + (a - 4096) = a := by omega
    have hk := hclean (a - 4096) (by omega)
    rw [e] at hk
    rw [flush_data_inside _ _ _ ha, hk]
  · rw [flush_data_outside _ _ _ (by omega)]

theorem full_clean_disk_header (k : Nat) (hk : k < 4096) :
    full_clean_disk.data (4096 + k) = header_block empty_header k := by
  have e : 4096 + k - 4096 = k := by omega
  unfold full_clean_disk clean_disk
  rw [pwrite_data, if_neg (by simp only [INODE_BMAP_IDX_eq, BLOCK_SIZE_eq]; omega),
    flush_data_inside _ _ _ (by omega), e]

theorem full_clean_disk_bitmap (i : Nat) (hi : i < 16) :
    bitmap_test (read_block full_clean_disk INODE_BMAP_IDX fresh 0) i = 1 := by
  interval_cases i <;> decide

theorem stage_create_ok {name : List Nat} {m : Metadata} {ino slot : Nat}
    (ha : alloc_inode m.inode_bitmap = some ino)
    (hs : dir_free_slot m.root_dir_block = some slot) :
    stage_create name m
      = .ok { m with
          inode_bitmap := bitmap_set m.inode_bitmap ino
          inode_blocks := init_inode m.inode_blocks ino
          root_dir_block := dir_insert m.root_dir_block slot ino name } := by
  unfold stage_create
  rw [ha]
  simp only
  rw [hs]

theorem stage_create_a : stage_create name_a zero_metadata = .ok metadata_a :=
  @stage_create_ok name_a zero_metadata 0 0 (by decide) (by decide)

theorem stage_create_b : stage_create name_b metadata_a = .ok metadata_ab :=
  @stage_create_ok name_b metadata_a 1 0 (by decide) (by decide)

theorem metadata_ab_dir_rest (k : Nat) (hk : 32 ≤ k) : metadata_ab.root_dir_block k = 0 := by
  simp only [metadata_ab, dir_insert, store8_apply, strncpy, store32_apply, fresh_apply,
    SIZEOF_DIRENT_eq]
  split_ifs <;> first | rfl | omega

theorem create_with_ok {name : List Nat} {d : Disk} {m : Metadata}
    (jh : journal_header) (h : stage_create name (read_metadata d) = .ok m) :
    create_with name d jh = (append_transaction d jh m, .committed) := by
  unfold create_with
  rw [h]

theorem stage_create_error_ne_committed {name : List Nat} {m : Metadata} {e : CreateStatus}
    (h : stage_create name m = .error e) : e ≠ .committed := by
  unfold stage_create at h
  split at h
  · simp only [Except.error.injEq] at h
    rw [← h]
    decide
  · simp only at h
    split at h
    · simp only [Except.error.injEq] at h
      rw [← h]
      decide
    · simp at h

/-- When `create_with` commits, the image it returns is the appended transaction. -/
theorem create_with_committed {name : List Nat} {d d2 : Disk} {jh : journal_header}
    (h : create_with name d jh = (d2, .committed)) :
    ∃ m, stage_create name (read_metadata d) = .ok m ∧ d2 = append_transaction d jh m := by
  cases hs : stage_create name (read_metadata d) with
  | error e =>
    rw [create_with_error jh hs] at h
    have h2 := congrArg Prod.snd h
    simp only at h2
    have hsc := stage_create_error_ne_committed hs
    exact absurd h2 hsc
  | ok m =>
    rw [create_with_ok jh hs] at h
    exact ⟨m, rfl, (congrArg Prod.fst h).symm⟩

/-- The header that `cmd_create` flushes after its appends. -/
theorem disk_header_append_transaction (d : Disk) (m : Metadata) :
    disk_header (append_transaction d empty_header m)
      = { magic := JOURNAL_MAGIC, nbytes_used := 20532 } := by
  have h := append_transaction_eq d JOURNAL_MAGIC m
  have e : append_transaction d empty_header m
      = append_transaction d { magic := JOURNAL_MAGIC, nbytes_used := 8 } m := rfl
  rw [e, h]
  exact disk_header_flush _ _ (by simp) (by simp)

/-- After `cmd_create` the bytes 8..4095 of the journal are zero: the header flush
rewrites the whole first journal block. -/
theorem append_transaction_clobbers (d : Disk) (m : Metadata) (k : Nat)
    (hk : 8 ≤ k ∧ k < 4096) :
    (append_transaction d empty_header m).data (4096 + k) = 0 := by
  have h := append_transaction_eq d JOURNAL_MAGIC m
  have e : append_transaction d empty_header m
      = append_transaction d { magic := JOURNAL_MAGIC, nbytes_used := 8 } m := rfl
  have e2 : 4096 + k - 4096 = k := by omega
  rw [e, h, flush_data_inside _ _ _ (by omega), e2]
  exact header_block_zero _ k hk.1

/-- A checkpoint that follows `cmd_create` stops at the first record, whose header was
zeroed by the header flush, and applies nothing. -/
theorem cmd_install_append_transaction (stack : Buf) (d : Disk) (m : Metadata) :
    cmd_install stack (append_transaction d empty_header m)
      = some (flush_journal_header (append_transaction d empty_header m) empty_header) := by
  have h10 := append_transaction_clobbers d m 10 (by omega)
  have h11 := append_transaction_clobbers d m 11 (by omega)
  simp only [Nat.reduceAdd] at h10 h11
  have hsize : le16 (read_journal (append_transaction d empty_header m)) 10 = 0 := by
    simp only [le16, read_journal_apply, Nat.reduceAdd, Nat.reduceLT, if_true, h10, h11]
  have hstep : replay_step (read_journal (append_transaction d empty_header m)) 20532
      (replay_init stack (append_transaction d empty_header m))
        = .stop (replay_init stack (append_transaction d empty_header m)) := by
    simp only [replay_step, replay_init, SIZEOF_REC_HEADER_eq, SIZEOF_JOURNAL_HEADER_eq,
      JOURNAL_BYTES_eq, Nat.reduceAdd, hsize]
    simp
  rw [cmd_install_eq, load_journal_header_eq, disk_header_append_transaction,
    if_neg (by simp)]
  simp only
  rw [replay_loop_stop hstep]
  rfl

/-- A checkpoint right after a committed `cmd_create` leaves every byte outside the
journal region as the checkpoint inside `cmd_create` left it. -/
theorem create_then_install {stack stack' : Buf} {name : List Nat} {d d2 : Disk}
    (h : cmd_create stack name d = some (d2, .committed)) :
    ∃ d1 d3, cmd_install stack d = some d1 ∧ cmd_install stack' d2 = some d3
      ∧ ∀ a, a < 4096 ∨ 69632 ≤ a → d3.data a = d1.data a := by
  cases hi : cmd_install stack d with
  | none => rw [cmd_create_none name hi] at h; simp at h
  | some d1 =>
    rw [cmd_create_of_install name hi] at h
    simp only [Option.some.injEq] at h
    obtain ⟨m, -, rfl⟩ := create_with_committed h
    refine ⟨d1, _, rfl, cmd_install_append_transaction stack' d1 m, ?_⟩
    intro a ha
    rw [flush_data_outside _ _ _ (by omega)]
    exact append_transaction_data_outside d1 JOURNAL_MAGIC m a ha

theorem clean_disk_data_outside (a : Nat) (ha : a < 4096 ∨ 8192 ≤ a) :
    clean_disk.data a = 0 := by
  unfold clean_disk
  rw [flush_data_outside _ _ _ ha, write_block_data, if_neg (by simp; omega)]
  rfl

theorem cmd_create_zero_disk :
    ∃ d2, cmd_create fresh name_a zero_disk = some (d2, .committed) := by
  have hs : stage_create name_a (read_metadata clean_disk) = .ok _ :=
    @stage_create_ok name_a (read_metadata clean_disk) 0 0 (by decide) (by decide)
  rw [cmd_create_of_install name_a (cmd_install_zero_disk fresh), create_with_ok _ hs]
  exact ⟨_, rfl⟩

theorem write_block_data_congr {d d' : Disk} {a : Nat} (b : Nat) (buf : Buf)
    (h : d.data a = d'.data a) :
    (write_block d b buf).data a = (write_block d' b buf).data a := by
  simp only [write_block_data, h]

theorem write_pending_data_congr (sel : Nat → Bool) (pending : Buf) (n : Nat) {d d' : Disk}
    {a : Nat} (h : d.data a = d'.data a) :
    (write_pending sel pending n d).data a = (write_pending sel pending n d').data a := by
  induction n with
  | zero => simpa [write_pending] using h
  | succ n ih =>
    unfold write_pending at *
    rw [List.range_succ, List.foldl_append, List.foldl_append]
    simp only [List.foldl_cons, List.foldl_nil]
    split_ifs
    · exact write_block_data_congr _ _ ih
    · exact ih

theorem apply_pending_data_congr (pending : Buf) (n : Nat) {d d' : Disk} {a : Nat}
    (h : d.data a = d'.data a) :
    (apply_pending pending n d).data a = (apply_pending pending n d').data a := by
  unfold apply_pending
  exact write_pending_data_congr _ _ _
    (write_pending_data_congr _ _ _ (write_pending_data_congr _ _ _ h))

theorem replay_step_rel {P : Nat → Prop} {j j' : Buf} {U : Nat}
    (hj : ∀ k, k < U → j k = j' k) {s s' : Replay} (h : replay_rel P U s s') :
    step_rel P U (replay_step j U s) (replay_step j' U s') := by
  obtain ⟨d, pos, pending, pc⟩ := s
  obtain ⟨d', pos', pending', pc'⟩ := s'
  obtain ⟨hp, hc, hd, hpend⟩ := h
  simp only at hp hc hd hpend
  subst hp hc
  by_cases hpos : pos + 4 ≤ U
  · have hpe := hpend hpos
    subst hpe
    have ht : le16 j' pos = le16 j pos := by
      simp only [le16, hj pos (by omega), hj (pos + 1) (by omega)]
    have hs : le16 j' (pos + 2) = le16 j (pos + 2) := by
      simp only [le16, hj (pos + 2) (by omega), hj (pos + 2 + 1) (by omega)]
    have hlt := le16_lt j (pos + 2)
    simp only [replay_step, SIZEOF_REC_HEADER_eq, JOURNAL_BYTES_eq, REC_DATA_eq,
      REC_COMMIT_eq, PENDING_BYTES_eq, SIZEOF_DATA_RECORD_eq, hpos, if_true, ht, hs]
    split_ifs with h1 h2 h3 h4 h5
    · trivial
    · exact hd
    · trivial
    · refine ⟨rfl, rfl, hd, ?_⟩
      intro hnext
      simp only at hnext
      have hle : pos + le16 j (pos + 2) ≤ U := by omega
      funext k
      simp only [memcpy_apply]
      split_ifs with hk
      · exact hj _ (by omega)
      · rfl
    · exact ⟨rfl, rfl, fun a ha => apply_pending_data_congr _ _ (hd a ha), fun _ => rfl⟩
    · exact ⟨rfl, rfl, hd, fun _ => rfl⟩
  · simp only [replay_step, SIZEOF_REC_HEADER_eq, hpos, if_false]
    exact hd

theorem replay_loop_rel {P : Nat → Prop} {j j' : Buf} {U : Nat}
    (hj : ∀ k, k < U → j k = j' k) (n : Nat) :
    ∀ s s' : Replay, 65536 - s.pos ≤ n → replay_rel P U s s' →
      scan_rel P (replay_loop j U s) (replay_loop j' U s') := by
  induction n with
  | zero =>
    intro s s' hn h
    have hr := replay_step_rel hj h
    cases h1 : replay_step j U s with
    | undef =>
      cases h2 : replay_step j' U s' with
      | undef => rw [replay_loop_undef h1, replay_loop_undef h2]; trivial
      | stop t' => rw [h1, h2] at hr; exact hr.elim
      | next t' => rw [h1, h2] at hr; exact hr.elim
    | stop t =>
      cases h2 : replay_step j' U s' with
      | undef => rw [h1, h2] at hr; exact hr.elim
      | stop t' =>
        rw [h1, h2] at hr
        rw [replay_loop_stop h1, replay_loop_stop h2]
        exact hr
      | next t' => rw [h1, h2] at hr; exact hr.elim
    | next t =>
      have := (replay_step_next h1).1
      simp only [JOURNAL_BYTES_eq] at this
      omega
  | succ n ih =>
    intro s s' hn h
    have hr := replay_step_rel hj h
    cases h1 : replay_step j U s with
    | undef =>
      cases h2 : replay_step j' U s' with
      | undef => rw [replay_loop_undef h1, replay_loop_undef h2]; trivial
      | stop t' => rw [h1, h2] at hr; exact hr.elim
      | next t' => rw [h1, h2] at hr; exact hr.elim
    | stop t =>
      cases h2 : replay_step j' U s' with
      | undef => rw [h1, h2] at hr; exact hr.elim
      | stop t' =>
        rw [h1, h2] at hr
        rw [replay_loop_stop h1, replay_loop_stop h2]
        exact hr
      | next t' => rw [h1, h2] at hr; exact hr.elim
    | next t =>
      cases h2 : replay_step j' U s' with
      | undef => rw [h1, h2] at hr; exact hr.elim
      | stop t' => rw [h1, h2] at hr; exact hr.elim
      | next t' =>
        rw [h1, h2] at hr
        rw [replay_loop_next h1, replay_loop_next h2]
        have hn' := replay_step_next h1
        apply ih t t' _ hr
        omega

theorem append_records_spec (recs : List (Nat × Buf)) :
    ∀ (d : Disk) (jh : journal_header),
      jh.nbytes_used + recs.length * 4104 < 4294967296 →
      (append_records d jh recs).2.nbytes_used = jh.nbytes_used + recs.length * 4104
        ∧ ∀ a, a < 4096 + jh.nbytes_used ∨ 4096 + jh.nbytes_used + recs.length * 4104 ≤ a →
            (append_records d jh recs).1.data a = d.data a := by
  induction recs with
  | nil => intro d jh _; simp [append_records]
  | cons r rs ih =>
    intro d jh hlt
    simp only [List.length_cons] at hlt ⊢
    have hmod : (jh.nbytes_used + 4104) % 4294967296 = jh.nbytes_used + 4104 :=
      Nat.mod_eq_of_lt (by omega)
    have hu : (append_data_record d jh r.1 r.2).2.nbytes_used = jh.nbytes_used + 4104 := by
      simp only [append_data_record, SIZEOF_DATA_RECORD_eq]
      exact hmod
    obtain ⟨h1, h2⟩ := ih (append_data_record d jh r.1 r.2).1 (append_data_record d jh r.1 r.2).2
      (by rw [hu]; omega)
    unfold append_records
    refine ⟨by rw [h1, hu]; ring, ?_⟩
    intro a ha
    rw [h2 a (by rw [hu]; omega)]
    simp only [append_data_record, pwrite_data, JOURNAL_BLOCK_IDX_eq, BLOCK_SIZE_eq,
      SIZEOF_DATA_RECORD_eq]
    rw [if_neg (by omega)]

theorem append_unflushed_data (d : Disk) (recs : List (Nat × Buf)) (a : Nat)
    (hcap : (disk_header d).nbytes_used + recs.length * 4104 + 4 ≤ 65536)
    (ha : a < 4096 + (disk_header d).nbytes_used ∨ 69632 ≤ a) :
    (append_unflushed d recs).data a = d.data a := by
  obtain ⟨h1, h2⟩ := append_records_spec recs d (disk_header d) (by omega)
  unfold append_unflushed
  simp only [append_commit_record, pwrite_data, JOURNAL_BLOCK_IDX_eq, BLOCK_SIZE_eq,
    SIZEOF_REC_HEADER_eq, h1]
  rw [if_neg (by omega), h2 a (by omega)]


theorem disk_header_append_unflushed (d : Disk) (recs : List (Nat × Buf))
    (h8 : 8 ≤ (disk_header d).nbytes_used)
    (hcap : (disk_header d).nbytes_used + recs.length * 4104 + 4 ≤ 65536) :
    disk_header (append_unflushed d recs) = disk_header d := by
  have h := fun a ha => append_unflushed_data d recs a hcap (Or.inl ha)
  unfold disk_header le32
  simp only [Nat.reduceAdd]
  rw [h 4096 (by omega), h 4097 (by omega), h 4098 (by omega), h 4099 (by omega),
    h 4100 (by omega), h 4101 (by omega), h 4102 (by omega), h 4103 (by omega)]

theorem same_outside_journal_install {s s' : Option Replay}
    (h : scan_rel outside_journal s s') :
    same_outside_journal (s.map (fun t => flush_journal_header t.disk empty_header))
      (s'.map (fun t => flush_journal_header t.disk empty_header)) := by
  cases s with
  | none =>
    cases s' with
    | none => trivial
    | some t' => exact h.elim
  | some t =>
    cases s' with
    | none => exact h.elim
    | some t' =>
      intro a ha
      exact write_block_data_congr _ _ (h a ha)

theorem data_record_bytes_type (b : Nat) (img : Buf) : le16 (data_record_bytes b img) 0 = 1 := by
  simp [le16, data_record_bytes]

theorem data_record_bytes_size (b : Nat) (img : Buf) :
    le16 (data_record_bytes b img) 2 = 4104 := by
  simp [le16, data_record_bytes]

theorem data_record_bytes_block_no (b : Nat) (img : Buf) (hb : b < 4294967296) :
    le32 (data_record_bytes b img) 4 = b := by
  simp [le32, data_record_bytes]
  omega

theorem data_record_bytes_block (b : Nat) (img : Buf) (k : Nat) (hk : k < 4096) :
    data_record_bytes b img (8 + k) = img k := by
  have e : 0 + (8 + k - 8) = k := by omega
  simp only [data_record_bytes, memcpy_apply, BLOCK_SIZE_eq]
  rw [if_pos ⟨by omega, by omega⟩, e]

/-- The step of the scan on a well-formed data record. -/
theorem replay_step_data {j : Buf} {U : Nat} {s : Replay} {b : Nat} {img : Buf}
    (hpos : s.pos + 4 ≤ U) (hb : s.pos + 4104 ≤ 65536) (hpc : s.pending_count < 64)
    (hrec : ∀ k, k < 4104 → j (s.pos + k) = data_record_bytes b img k) :
    replay_step j U s
      = .next { s with
          pending := memcpy s.pending (s.pending_count * 4104) j s.pos 4104
          pending_count := s.pending_count + 1
          pos := s.pos + 4104 } := by
  have h0 := hrec 0 (by omega)
  have h1 := hrec 1 (by omega)
  have h2 := hrec 2 (by omega)
  have h3 := hrec 3 (by omega)
  have ht : le16 j s.pos = 1 := by
    rw [← data_record_bytes_type b img]
    simp only [le16, Nat.zero_add]
    rw [← h0, ← h1]
    rfl
  have hs : le16 j (s.pos + 2) = 4104 := by
    rw [← data_record_bytes_size b img]
    simp only [le16, Nat.reduceAdd]
    rw [← h2, ← h3]
  have hmod : (s.pos + 4104) % 4294967296 = s.pos + 4104 := Nat.mod_eq_of_lt (by omega)
  simp only [replay_step, SIZEOF_REC_HEADER_eq, JOURNAL_BYTES_eq, REC_DATA_eq,
    PENDING_BYTES_eq, SIZEOF_DATA_RECORD_eq, ht, hs, Nat.reducePow, hmod]
  rw [if_pos hpos, if_neg (by omega), if_neg (by omega), if_pos trivial, if_neg (by omega)]

/-- The scan over a run of well-formed data records: when a further record header
lies below `U` the scan reaches it with all the records pending and the image
untouched, otherwise the scan ends with the image untouched. -/
theorem replay_loop_records {j : Buf} {U : Nat} (recs : List (Nat × Buf)) :
    ∀ s : Replay, holds_records j s.pos recs →
      s.pos + recs.length * 4104 ≤ 65536 → s.pending_count + recs.length ≤ 64 →
      (s.pos + recs.length * 4104 + 4 ≤ U →
          replay_loop j U s
            = replay_loop j U
                { s with
                  pos := s.pos + recs.length * 4104
                  pending_count := s.pending_count + recs.length
                  pending := copy_records j recs.length s.pos s.pending_count s.pending })
        ∧ (U < s.pos + recs.length * 4104 + 4 →
            ∃ t, replay_loop j U s = some t ∧ t.disk = s.disk) := by
  induction recs with
  | nil =>
    intro s _ _ _
    constructor
    · intro _
      simp only [List.length_nil, Nat.zero_mul, Nat.add_zero, copy_records]
    · intro hU
      simp only [List.length_nil, Nat.zero_mul, Nat.add_zero] at hU
      refine ⟨s, replay_loop_stop ?_, rfl⟩
      simp only [replay_step, SIZEOF_REC_HEADER_eq]
      rw [if_neg (by omega)]
  | cons r rs ih =>
    intro s hrec hfit hpc
    simp only [List.length_cons] at hfit hpc ⊢
    obtain ⟨hr, hrs⟩ := hrec
    simp only [SIZEOF_DATA_RECORD_eq] at hr hrs
    have hstep := fun hpos => @replay_step_data j U s r.1 r.2 hpos (by omega) (by omega) hr
    obtain ⟨ih1, ih2⟩ := ih
      { s with
        pending := memcpy s.pending (s.pending_count * 4104) j s.pos 4104
        pending_count := s.pending_count + 1
        pos := s.pos + 4104 } hrs (by simp only; omega) (by simp only; omega)
    simp only at ih1 ih2
    have e1 : s.pos + 4104 + rs.length * 4104 = s.pos + (rs.length + 1) * 4104 := by omega
    have e2 : s.pending_count + 1 + rs.length = s.pending_count + (rs.length + 1) := by omega
    constructor
    · intro hU
      rw [replay_loop_next (hstep (by omega)), ih1 (by omega), e1, e2]
      simp only [copy_records, SIZEOF_DATA_RECORD_eq]
    · intro hU
      by_cases hpos : s.pos + 4 ≤ U
      · rw [replay_loop_next (hstep hpos)]
        exact ih2 (by omega)
      · refine ⟨s, replay_loop_stop ?_, rfl⟩
        simp only [replay_step, SIZEOF_REC_HEADER_eq]
        rw [if_neg hpos]

theorem copy_records_apply (j : Buf) (n : Nat) :
    ∀ (pos pc : Nat) (pending : Buf) (k : Nat),
      copy_records j n pos pc pending k
        = if pc * 4104 ≤ k ∧ k < (pc + n) * 4104 then j (pos + (k - pc * 4104))
          else pending k := by
  induction n with
  | zero =>
    intro pos pc pending k
    simp only [copy_records, Nat.add_zero]
    rw [if_neg (by omega)]
  | succ n ih =>
    intro pos pc pending k
    simp only [copy_records, SIZEOF_DATA_RECORD_eq, ih, memcpy_apply]
    split_ifs <;> first | rfl | omega | (congr 1; omega)

theorem write_pending_succ (sel : Nat → Bool) (pending : Buf) (n : Nat) (d : Disk) :
    write_pending sel pending (n + 1) d
      = if sel (pending_block_no pending n) then
          write_block (write_pending sel pending n d) (pending_block_no pending n)
            (pending_block pending n)
        else write_pending sel pending n d := by
  unfold write_pending
  rw [List.range_succ, List.foldl_append]
  rfl

theorem write_pending_data_untouched (sel : Nat → Bool) (pending : Buf) (n : Nat) (d : Disk)
    (a : Nat)
    (h : ∀ i, i < n → sel (pending_block_no pending i) = true →
      ¬ (pending_block_no pending i * 4096 ≤ a ∧ a < pending_block_no pending i * 4096 + 4096)) :
    (write_pending sel pending n d).data a = d.data a := by
  induction n with
  | zero => simp [write_pending]
  | succ n ih =>
    have ih' := ih (fun i hi => h i (by omega))
    rw [write_pending_succ]
    split_ifs with hs
    · rw [write_block_data, if_neg (h n (by omega) hs), ih']
    · exact ih'

theorem write_pending_data_written (sel : Nat → Bool) (pending : Buf) (n : Nat) (d : Disk)
    (i k : Nat) (hi : i < n) (hk : k < 4096) (hsel : sel (pending_block_no pending i) = true)
    (hd : ∀ j, j < n → j ≠ i → pending_block_no pending j ≠ pending_block_no pending i) :
    (write_pending sel pending n d).data (pending_block_no pending i * 4096 + k)
      = pending_block pending i k := by
  induction n with
  | zero => omega
  | succ n ih =>
    rw [write_pending_succ]
    by_cases hin : i = n
    · subst hin
      have e : pending_block_no pending i * 4096 + k - pending_block_no pending i * 4096 = k := by
        omega
      rw [if_pos hsel, write_block_data, if_pos ⟨by omega, by omega⟩, e]
    · have ih' := ih (by omega) (fun j hj hne => hd j (by omega) hne)
      have hne := hd n (by omega) (fun h => hin h.symm)
      split_ifs with hs
      · rw [write_block_data, if_neg (by omega), ih']
      · exact ih'

theorem apply_pending_data_written (pending : Buf) (n : Nat) (d : Disk) (i k : Nat)
    (hi : i < n) (hk : k < 4096)
    (hd : ∀ j, j < n → j ≠ i → pending_block_no pending j ≠ pending_block_no pending i) :
    (apply_pending pending n d).data (pending_block_no pending i * 4096 + k)
      = pending_block pending i k := by
  unfold apply_pending
  simp only [INODE_BMAP_IDX_eq, DATA_BMAP_IDX_eq]
  by_cases h17 : pending_block_no pending i = 17
  · rw [write_pending_data_untouched, write_pending_data_untouched]
    · exact write_pending_data_written _ _ _ _ _ _ hi hk (by simp [h17]) hd
    · intro j _ hs
      simp only [beq_iff_eq] at hs
      omega
    · intro j _ hs
      simp only [Bool.and_eq_true, bne_iff_ne, ne_eq] at hs
      omega
  · by_cases h18 : pending_block_no pending i = 18
    · rw [write_pending_data_untouched]
      · exact write_pending_data_written _ _ _ _ _ _ hi hk (by simp [h18]) hd
      · intro j _ hs
        simp only [Bool.and_eq_true, bne_iff_ne, ne_eq] at hs
        omega
    · exact write_pending_data_written _ _ _ _ _ _ hi hk (by simp [h17, h18]) hd

theorem holds_records_getElem {j : Buf} (recs : List (Nat × Buf)) :
    ∀ (p : Nat), holds_records j p recs →
      ∀ (i : Nat) (hi : i < recs.length) (k : Nat), k < 4104 →
        j (p + i * 4104 + k) = data_record_bytes recs[i].1 recs[i].2 k := by
  induction recs with
  | nil => intro p _ i hi; simp at hi
  | cons r rs ih =>
    intro p h i hi k hk
    obtain ⟨hr, hrs⟩ := h
    simp only [SIZEOF_DATA_RECORD_eq] at hr hrs
    cases i with
    | zero =>
      simp only [Nat.zero_mul, Nat.add_zero, List.getElem_cons_zero]
      exact hr k hk
    | succ i =>
      simp only [List.getElem_cons_succ]
      have := ih (p + 4104) hrs i (by simpa using hi) k hk
      rw [← this]
      congr 1
      omega

/-- The pending array after the scan has copied the records of a log that holds
`recs` from offset 8 on: entry `i` is record `i`. -/
theorem pending_of_records {j : Buf} {recs : List (Nat × Buf)} (stack : Buf)
    (h : holds_records j 8 recs) (i : Nat) (hi : i < recs.length)
    (hb : recs[i].1 < 4294967296) :
    pending_block_no (copy_records j recs.length 8 0 stack) i = recs[i].1
      ∧ ∀ k, k < 4096 → pending_block (copy_records j recs.length 8 0 stack) i k = recs[i].2 k := by
  have hg := holds_records_getElem recs 8 h i hi
  have hcopy : ∀ t, t < 4104 →
      copy_records j recs.length 8 0 stack (i * 4104 + t)
        = data_record_bytes recs[i].1 recs[i].2 t := by
    intro t ht
    have hlt : i * 4104 + t < recs.length * 4104 := by
      have : (i + 1) * 4104 ≤ recs.length * 4104 := Nat.mul_le_mul_right _ hi
      omega
    rw [copy_records_apply, if_pos ⟨by omega, by omega⟩, ← hg t ht]
    congr 1
    omega
  constructor
  · rw [← data_record_bytes_block_no recs[i].1 recs[i].2 hb]
    simp only [pending_block_no, le32, SIZEOF_DATA_RECORD_eq, Nat.add_assoc, Nat.reduceAdd]
    rw [hcopy 4 (by omega), hcopy 5 (by omega), hcopy 6 (by omega), hcopy 7 (by omega)]
  · intro k hk
    simp only [pending_block, SIZEOF_DATA_RECORD_eq, Nat.add_assoc]
    rw [hcopy (8 + k) (by omega), data_record_bytes_block _ _ _ hk]

theorem replay_step_commit {j : Buf} {U : Nat} {s : Replay}
    (hpos : s.pos + 4 ≤ U) (hbuf : s.pos + 4 ≤ 65536)
    (htype : le16 j s.pos = 2) (hsize : le16 j (s.pos + 2) ≠ 0) :
    replay_step j U s
      = .next { s with
          disk := apply_pending s.pending s.pending_count s.disk
          pending_count := 0
          pos := s.pos + le16 j (s.pos + 2) } := by
  have hlt := le16_lt j (s.pos + 2)
  have hmod : (s.pos + le16 j (s.pos + 2)) % 4294967296 = s.pos + le16 j (s.pos + 2) :=
    Nat.mod_eq_of_lt (by omega)
  simp only [replay_step, SIZEOF_REC_HEADER_eq, JOURNAL_BYTES_eq, REC_DATA_eq, REC_COMMIT_eq,
    htype, Nat.reducePow, hmod]
  rw [if_pos hpos, if_neg (by omega), if_neg hsize]
  simp

theorem cmd_install_of_valid (stack : Buf) (d : Disk)
    (hm : (disk_header d).magic = JOURNAL_MAGIC) :
    cmd_install stack d
      = (replay_loop (read_journal d) (disk_header d).nbytes_used (replay_init stack d)).map
          (fun s => flush_journal_header s.disk empty_header) := by
  rw [cmd_install_eq, load_journal_header_eq, if_neg (by simpa using hm)]

theorem disk_header_committed_disk :
    disk_header committed_disk = { magic := JOURNAL_MAGIC, nbytes_used := 4116 } := by
  simp [disk_header, committed_disk, le32, flush_journal_header, write_block_data, header_block]

theorem committed_disk_holds :
    holds_records (read_journal committed_disk) SIZEOF_JOURNAL_HEADER [(17, payload_ff)] := by
  refine ⟨?_, trivial⟩
  intro k hk
  simp only [SIZEOF_DATA_RECORD_eq, SIZEOF_JOURNAL_HEADER_eq] at hk ⊢
  have e : 4096 + (8 + k) - 4104 = k := by omega
  rw [read_journal_apply, if_pos (by omega)]
  simp only [committed_disk, pwrite_data]
  rw [if_neg (by omega), if_pos ⟨by omega, by omega⟩, e]

theorem committed_disk_commit :
    le16 (read_journal committed_disk) 4112 = 2
      ∧ le16 (read_journal committed_disk) 4114 = 4 := by
  simp [le16, read_journal_apply, committed_disk, commit_record_bytes]

theorem replay_step_stop_eq {j : Buf} {U : Nat} {s t : Replay}
    (h : replay_step j U s = .stop t) : t = s := by
  unfold replay_step at h
  simp only [SIZEOF_REC_HEADER_eq] at h
  split_ifs at h <;> simp only [Step.stop.injEq, reduceCtorEq] at h <;> exact h.symm

theorem replay_step_next_writes {j : Buf} {U : Nat} {s t : Replay}
    (h : replay_step j U s = .next t) : ∃ ws, t.disk.writes = s.disk.writes ++ ws := by
  unfold replay_step at h
  simp only [SIZEOF_REC_HEADER_eq] at h
  split_ifs at h <;> simp only [Step.next.injEq, reduceCtorEq] at h <;> subst h
  · exact ⟨[], by simp⟩
  · exact ⟨_, by simp only [apply_pending_writes, List.append_assoc]; rfl⟩
  · exact ⟨[], by simp⟩

/-- The scan only adds writes to the log of the image. -/
theorem replay_loop_writes {j : Buf} {U : Nat} (n : Nat) :
    ∀ s t : Replay, 65536 - s.pos ≤ n → replay_loop j U s = some t →
      ∃ ws, t.disk.writes = s.disk.writes ++ ws := by
  induction n with
  | zero =>
    intro s t hn h
    cases h1 : replay_step j U s with
    | undef => rw [replay_loop_undef h1] at h; simp at h
    | stop t' =>
      rw [replay_loop_stop h1] at h
      simp only [Option.some.injEq] at h
      rw [← h, replay_step_stop_eq h1]
      exact ⟨[], by simp⟩
    | next t' =>
      have := (replay_step_next h1).1
      simp only [JOURNAL_BYTES_eq] at this
      omega
  | succ n ih =>
    intro s t hn h
    cases h1 : replay_step j U s with
    | undef => rw [replay_loop_undef h1] at h; simp at h
    | stop t' =>
      rw [replay_loop_stop h1] at h
      simp only [Option.some.injEq] at h
      rw [← h, replay_step_stop_eq h1]
      exact ⟨[], by simp⟩
    | next t' =>
      rw [replay_loop_next h1] at h
      have hn' := replay_step_next h1
      obtain ⟨ws1, hw1⟩ := replay_step_next_writes h1
      obtain ⟨ws2, hw2⟩ := ih t' t (by omega) h
      exact ⟨ws1 ++ ws2, by rw [hw2, hw1, List.append_assoc]⟩

theorem mem_pending_writes_of {pending : Buf} {n i : Nat} (sel : Nat → Bool) (hi : i < n)
    (hs : sel (pending_block_no pending i) = true) :
    (pending_block_no pending i * 4096, bytes (pending_block pending i) 4096)
      ∈ pending_writes sel pending n := by
  simp only [pending_writes, List.mem_map, List.mem_filter, List.mem_range, BLOCK_SIZE_eq]
  exact ⟨i, ⟨hi, hs⟩, rfl⟩

/-- Every pending record is among the writes of the commit branch. -/
theorem mem_commit_writes (pending : Buf) (n : Nat) (i : Nat) (hi : i < n) :
    (pending_block_no pending i * 4096, bytes (pending_block pending i) 4096)
      ∈ pending_writes (fun b => b == INODE_BMAP_IDX) pending n
          ++ pending_writes (fun b => b == DATA_BMAP_IDX) pending n
          ++ pending_writes (fun b => b != INODE_BMAP_IDX && b != DATA_BMAP_IDX) pending n := by
  simp only [List.mem_append]
  by_cases h17 : pending_block_no pending i = INODE_BMAP_IDX
  · exact Or.inl (Or.inl (mem_pending_writes_of _ hi (by simp [h17])))
  · by_cases h18 : pending_block_no pending i = DATA_BMAP_IDX
    · exact Or.inl (Or.inr (mem_pending_writes_of _ hi (by simp [h18])))
    · simp only [INODE_BMAP_IDX_eq, DATA_BMAP_IDX_eq] at h17 h18
      exact Or.inr (mem_pending_writes_of _ hi (by simp [h17, h18]))

theorem bytes_congr {b b' : Buf} {n : Nat} (h : ∀ k, k < n → b k = b' k) :
    bytes b n = bytes b' n := by
  unfold bytes
  apply List.map_congr_left
  intro k hk
  exact h k (List.mem_range.mp hk)

theorem load_journal_header_valid {d : Disk} (h : (disk_header d).magic = JOURNAL_MAGIC) :
    load_journal_header d = (d, disk_header d) := by
  rw [load_journal_header_eq, if_neg (by simpa using h)]

theorem load_journal_header_uninit {d : Disk} (h : (disk_header d).magic ≠ JOURNAL_MAGIC) :
    load_journal_header d
      = (flush_journal_header d empty_header, empty_header) := by
  rw [load_journal_header_eq, if_pos h]
  rfl

theorem bitmap_test_eq (bm : Buf) (idx : Nat) :
    bitmap_test bm idx = if (bm (idx / 8)).testBit (idx % 8) then 1 else 0 := by
  unfold bitmap_test
  rw [Nat.and_one_is_mod, Nat.testBit_to_div_mod, Nat.shiftRight_eq_div_pow]
  split_ifs with h
  · simpa using h
  · have := Nat.mod_two_eq_zero_or_one (bm (idx / 8) / 2 ^ (idx % 8))
    simp only [decide_eq_true_eq] at h
    omega

theorem testBit_set_byte (x b k : Nat) (hk : k < 8) :
    ((x ||| 1 <<< b) % 256).testBit k = (x.testBit k || decide (b = k)) := by
  have h256 : (256 : Nat) = 2 ^ 8 := by norm_num
  rw [h256, Nat.testBit_mod_two_pow, Nat.testBit_lor, Nat.one_shiftLeft, Nat.testBit_two_pow]
  simp [hk]

theorem bitmap_test_set (bm : Buf) (i j : Nat) :
    bitmap_test (bitmap_set bm i) j = if j = i then 1 else bitmap_test bm j := by
  rw [bitmap_test_eq, bitmap_test_eq]
  unfold bitmap_set
  by_cases hq : j / 8 = i / 8
  · rw [if_pos hq, testBit_set_byte _ _ _ (Nat.mod_lt _ (by norm_num))]
    by_cases hji : j = i
    · subst hji
      simp
    · have hr : ¬ i % 8 = j % 8 := by omega
      rw [if_neg hji, hq]
      simp [hr]
  · have hji : j ≠ i := fun h => hq (by rw [h])
    rw [if_neg hq, if_neg hji]

theorem bitmap_set_set (bm : Buf) (i : Nat) :
    bitmap_set (bitmap_set bm i) i = bitmap_set bm i := by
  funext k
  unfold bitmap_set
  by_cases hk : k = i / 8
  · simp only [if_pos hk, if_true]
    apply Nat.eq_of_testBit_eq
    intro t
    have h256 : (256 : Nat) = 2 ^ 8 := by norm_num
    simp only [h256, Nat.testBit_mod_two_pow, Nat.testBit_lor]
    by_cases ht : t < 8 <;> simp [ht]
  · simp only [if_neg hk]

theorem replay_fuel_enough (journal : Buf) (U : Nat) (n : Nat) :
    ∀ s : Replay, U - s.pos < n →
      replay_fuel journal U n s = some (replay_loop journal U s) := by
  induction n with
  | zero => intro s h; omega
  | succ n ih =>
    intro s h
    rw [replay_fuel]
    cases h1 : replay_step journal U s with
    | undef => rw [replay_loop_undef h1]
    | stop t => rw [replay_loop_stop h1]
    | next t =>
      have hn := replay_step_next h1
      rw [replay_loop_next h1]
      exact ih t (by omega)

theorem replay_step_undef_data {journal : Buf} {U : Nat} {s : Replay}
    (hU : U ≤ 65536) (h : replay_step journal U s = .undef) :
    le16 journal s.pos = REC_DATA := by
  unfold replay_step at h
  simp only [SIZEOF_REC_HEADER_eq, JOURNAL_BYTES_eq] at h
  split_ifs at h with h1 h2 h3 h4 h5
  · omega
  · exact h4

/-- How one iteration changes the count of pending records. -/
theorem replay_step_next_count {journal : Buf} {U : Nat} {s t : Replay}
    (h : replay_step journal U s = .next t) :
    (le16 journal s.pos = REC_DATA ∧ t.pending_count = s.pending_count + 1)
      ∨ t.pending_count = 0 ∨ t.pending_count = s.pending_count := by
  unfold replay_step at h
  simp only [SIZEOF_REC_HEADER_eq] at h
  split_ifs at h with h1 h2 h3 h4 h5 h6 <;>
    simp only [Step.next.injEq, reduceCtorEq] at h <;> subst h
  · exact Or.inl ⟨h4, rfl⟩
  · exact Or.inr (Or.inl rfl)
  · exact Or.inr (Or.inr rfl)

/-- Each pending record accounts for 4104 bytes of the log before the scan offset. -/
theorem scanned_invariant {journal : Buf} {U : Nat} {s0 s : Replay} (hU : U ≤ 65536)
    (h0 : 8 + s0.pending_count * 4104 ≤ s0.pos) (h16 : s0.pending_count ≤ 16)
    (hs : Scanned journal U s0 s)
    (hwf : ∀ t, Scanned journal U s0 t → t.pos + 4 ≤ U → le16 journal t.pos = REC_DATA →
      le16 journal (t.pos + 2) = 4104) :
    8 + s.pending_count * 4104 ≤ s.pos ∧ s.pending_count ≤ 16 := by
  induction hs with
  | start => exact ⟨h0, h16⟩
  | step hs' hstep ih =>
    obtain ⟨ih1, ih2⟩ := ih
    obtain ⟨hb, hp, hne, hpos⟩ := replay_step_next hstep
    rcases replay_step_next_count hstep with ⟨ht, hc⟩ | hc | hc
    · have hsz := hwf _ hs' hp ht
      rw [hc, hpos, hsz]
      omega
    · rw [hc]
      omega
    · rw [hc, hpos]
      omega

theorem committed_disk_data_header :
    le16 (read_journal committed_disk) 8 = 1
      ∧ le16 (read_journal committed_disk) 10 = 4104 := by
  have h := committed_disk_holds.1
  simp only [SIZEOF_DATA_RECORD_eq, SIZEOF_JOURNAL_HEADER_eq] at h
  have h0 := h 0 (by omega)
  have h1 := h 1 (by omega)
  have h2 := h 2 (by omega)
  have h3 := h 3 (by omega)
  simp only [Nat.add_zero, Nat.reduceAdd] at h0 h1 h2 h3
  constructor
  · rw [← data_record_bytes_type 17 payload_ff]
    simp only [le16, Nat.reduceAdd, h0, h1]
  · rw [← data_record_bytes_size 17 payload_ff]
    simp only [le16, Nat.reduceAdd, h2, h3]

/-- The scan of `committed_disk` is at offset 8 or at offset 4112 or beyond. -/
theorem committed_disk_scanned (stack : Buf) (t : Replay)
    (ht : Scanned (read_journal committed_disk) 4116 (replay_init stack committed_disk) t) :
    t.pos = 8 ∨ 4112 ≤ t.pos := by
  induction ht with
  | start => exact Or.inl rfl
  | step _ hstep ih =>
    obtain ⟨-, -, -, hpos⟩ := replay_step_next hstep
    rcases ih with h8 | h
    · rw [h8] at hpos
      simp only [Nat.reduceAdd, committed_disk_data_header.2] at hpos
      omega
    · omega

theorem committed_disk_well_formed (stack : Buf) (t : Replay)
    (ht : Scanned (read_journal committed_disk) 4116 (replay_init stack committed_disk) t)
    (hp : t.pos + 4 ≤ 4116) (hd : le16 (read_journal committed_disk) t.pos = REC_DATA) :
    le16 (read_journal committed_disk) (t.pos + 2) = SIZEOF_DATA_RECORD := by
  rcases committed_disk_scanned stack t ht with h8 | h
  · rw [h8]
    exact committed_disk_data_header.2
  · have h4112 : t.pos = 4112 := by omega
    rw [h4112, committed_disk_commit.1] at hd
    simp at hd

theorem stage_create_ok_inv {name : List Nat} {m m' : Metadata}
    (h : stage_create name m = .ok m') :
    ∃ k slot, alloc_inode m.inode_bitmap = some k
      ∧ dir_free_slot m.root_dir_block = some slot
      ∧ m' = { m with
          inode_bitmap := bitmap_set m.inode_bitmap k
          inode_blocks := init_inode m.inode_blocks k
          root_dir_block := dir_insert m.root_dir_block slot k name } := by
  cases ha : alloc_inode m.inode_bitmap with
  | none =>
    unfold stage_create at h
    rw [ha] at h
    simp at h
  | some k =>
    cases hs : dir_free_slot m.root_dir_block with
    | none =>
      unfold stage_create at h
      rw [ha] at h
      simp only at h
      rw [hs] at h
      simp at h
    | some slot =>
      rw [stage_create_ok ha hs] at h
      simp only [Except.ok.injEq] at h
      exact ⟨k, slot, rfl, rfl, h.symm⟩

theorem cmd_create_committed {stack : Buf} {name : List Nat} {d d2 : Disk}
    (h : cmd_create stack name d = some (d2, .committed)) :
    ∃ d1 m, cmd_install stack d = some d1
      ∧ stage_create name (read_metadata d1) = .ok m
      ∧ d2 = append_transaction d1 empty_header m := by
  cases hi : cmd_install stack d with
  | none => rw [cmd_create_none name hi] at h; simp at h
  | some d1 =>
    rw [cmd_create_of_install name hi] at h
    simp only [Option.some.injEq] at h
    obtain ⟨m, hm, rfl⟩ := create_with_committed h
    exact ⟨d1, m, rfl, hm, rfl⟩

theorem cmd_create_zero_disk_eq :
    cmd_create fresh name_a zero_disk = some (created_disk, .committed) := by
  have hs : stage_create name_a (read_metadata clean_disk) = .ok staged_a :=
    @stage_create_ok name_a (read_metadata clean_disk) 0 0 (by decide) (by decide)
  rw [cmd_create_of_install name_a (cmd_install_zero_disk fresh), create_with_ok _ hs]
  rfl

theorem append_transaction_empty_writes (d : Disk) (m : Metadata) :
    (append_transaction d empty_header m).writes
      = d.writes ++
        [(4104, bytes (data_record_bytes 17 m.inode_bitmap) 4104),
         (8208, bytes (data_record_bytes 18 m.data_bitmap) 4104),
         (12312, bytes (data_record_bytes 19 m.inode_blocks) 4104),
         (16416, bytes (data_record_bytes 20 (buf_at m.inode_blocks 4096)) 4104),
         (20520, bytes (data_record_bytes 21 m.root_dir_block) 4104),
         (24624, bytes commit_record_bytes 4),
         (4096, bytes (header_block { magic := JOURNAL_MAGIC, nbytes_used := 20532 }) 4096)] :=
  append_transaction_writes d JOURNAL_MAGIC m

theorem commit_record_bytes_header :
    le16 commit_record_bytes 0 = 2 ∧ le16 commit_record_bytes 2 = 4 := by
  simp [le16, commit_record_bytes]

theorem alloc_inode_lt {bm : Buf} {k : Nat} (h : alloc_inode bm = some k) : k < 16 := by
  unfold alloc_inode at h
  have := (List.find?_range_eq_some.mp h).2.1
  exact List.mem_range.mp this

theorem init_inode_outside (blocks : Buf) (k a : Nat) (ha : a < k * 128 ∨ k * 128 + 128 ≤ a) :
    init_inode blocks k a = blocks a := by
  simp only [init_inode, INODE_SIZE_eq, store32_apply, store16_apply, memset_apply]
  split_ifs <;> first | rfl | omega

theorem init_inode_slot (blocks : Buf) (k t : Nat) (ht : t < 128) :
    init_inode blocks k (k * 128 + t) = if t = 0 ∨ t = 2 then 1 else 0 := by
  simp only [init_inode, INODE_SIZE_eq, store32_apply, store16_apply, memset_apply]
  split_ifs <;> first | rfl | omega

theorem init_inode_fields (blocks : Buf) (k : Nat) :
    le16 (init_inode blocks k) (k * 128) = 1
      ∧ le16 (init_inode blocks k) (k * 128 + 2) = 1
      ∧ le32 (init_inode blocks k) (k * 128 + 4) = 0 := by
  have h := fun t ht => init_inode_slot blocks k t ht
  have h0 := h 0 (by omega)
  have h1 := h 1 (by omega)
  have h2 := h 2 (by omega)
  have h3 := h 3 (by omega)
  have h4 := h 4 (by omega)
  have h5 := h 5 (by omega)
  have h6 := h 6 (by omega)
  have h7 := h 7 (by omega)
  simp only [Nat.add_zero] at h0
  simp only [le16, le32, Nat.add_assoc, Nat.reduceAdd, h0, h1, h2, h3, h4, h5, h6, h7]
  simp

theorem bitmap_set_other_byte (bm : Buf) (i b : Nat) (hb : b ≠ i / 8) :
    bitmap_set bm i b = bm b := by
  unfold bitmap_set
  rw [if_neg hb]

theorem main_create (stack : Buf) (prog name : List Nat) (d : Disk) :
    main stack [prog, str_create, name] d
      = (cmd_create stack name d).map (fun r => (r.1, 0)) := by
  rw [main, if_neg (by simp), if_pos (by simp [streq]), if_neg (by simp)]
  rfl

theorem cmd_create_full_clean_disk (stack : Buf) (name : List Nat) :
    cmd_create stack name full_clean_disk
      = some (flush_journal_header full_clean_disk empty_header, .no_free_inodes) := by
  have hh := disk_header_of_clean full_clean_disk_header
  have hi := cmd_install_of_short stack full_clean_disk (by rw [hh]; rfl)
    (by rw [hh]; simp [empty_header])
  have hmeta := read_metadata_congr (flush_data_of_clean full_clean_disk_header)
  rw [cmd_create_of_install name hi, create_with_error]
  rw [hmeta]
  exact stage_create_no_free_inodes name _ full_clean_disk_bitmap

theorem disk_header_long_commit_disk :
    disk_header long_commit_disk = { magic := JOURNAL_MAGIC, nbytes_used := 4116 } := by
  simp [disk_header, long_commit_disk, le32, flush_journal_header, write_block_data,
    header_block]

theorem long_commit_disk_holds :
    holds_records (read_journal long_commit_disk) 8 [(17, payload_ff)] := by
  refine ⟨?_, trivial⟩
  intro k hk
  simp only [SIZEOF_DATA_RECORD_eq] at hk ⊢
  have e : 4096 + (8 + k) - 4104 = k := by omega
  rw [read_journal_apply, if_pos (by omega)]
  simp only [long_commit_disk, pwrite_data]
  rw [if_neg (by omega), if_pos ⟨by omega, by omega⟩, e]

theorem long_commit_disk_commit :
    le16 (read_journal long_commit_disk) 4112 = 2
      ∧ le16 (read_journal long_commit_disk) 4114 = 100 := by
  simp [le16, read_journal_apply, long_commit_disk, long_commit_bytes]

theorem long_commit_disk_block : long_commit_disk.data (17 * 4096) = 0 := by
  simp [long_commit_disk, flush_journal_header, write_block_data, zero_disk]

/-- The checkpoint of `long_commit_disk` applies the pending record. -/
theorem cmd_install_long_commit_disk (stack : Buf) :
    cmd_install stack long_commit_disk
      = some (flush_journal_header
          (apply_pending (copy_records (read_journal long_commit_disk) 1 8 0 stack) 1
            long_commit_disk) empty_header) := by
  obtain ⟨hall, -⟩ := @replay_loop_records (read_journal long_commit_disk) 4116
    [(17, payload_ff)] (replay_init stack long_commit_disk) long_commit_disk_holds
    (by simp [replay_init]) (by simp [replay_init])
  simp only [replay_init, SIZEOF_JOURNAL_HEADER_eq, List.length_singleton, Nat.one_mul,
    Nat.reduceAdd, Nat.zero_add] at hall
  have hstep : replay_step (read_journal long_commit_disk) 4116
      { disk := long_commit_disk, pos := 4112,
        pending := copy_records (read_journal long_commit_disk) 1 8 0 stack,
        pending_count := 1 }
      = .next
        { disk := apply_pending (copy_records (read_journal long_commit_disk) 1 8 0 stack) 1
            long_commit_disk,
          pos := 4112 + le16 (read_journal long_commit_disk) (4112 + 2),
          pending := copy_records (read_journal long_commit_disk) 1 8 0 stack,
          pending_count := 0 } :=
    replay_step_commit (by simp only; omega) (by simp only; omega)
      long_commit_disk_commit.1 (by simp only [Nat.reduceAdd, long_commit_disk_commit.2]; omega)
  simp only [Nat.reduceAdd, long_commit_disk_commit.2] at hstep
  have hstop : replay_loop (read_journal long_commit_disk) 4116
      { disk := apply_pending (copy_records (read_journal long_commit_disk) 1 8 0 stack) 1
          long_commit_disk,
        pos := 4212,
        pending := copy_records (read_journal long_commit_disk) 1 8 0 stack,
        pending_count := 0 }
      = some
        { disk := apply_pending (copy_records (read_journal long_commit_disk) 1 8 0 stack) 1
            long_commit_disk,
          pos := 4212,
          pending := copy_records (read_journal long_commit_disk) 1 8 0 stack,
          pending_count := 0 } := by
    apply replay_loop_stop
    simp only [replay_step, SIZEOF_REC_HEADER_eq]
    rw [if_neg (by omega)]
  rw [cmd_install_of_valid stack long_commit_disk
      (congrArg journal_header.magic disk_header_long_commit_disk),
    disk_header_long_commit_disk]
  simp only [replay_init, SIZEOF_JOURNAL_HEADER_eq]
  rw [hall (by omega), replay_loop_next hstep, hstop]
  rfl

theorem replay_loop_past {journal : Buf} {U : Nat} {s : Replay} (h : ¬ s.pos + 4 ≤ U) :
    replay_loop journal U s = some s := by
  apply replay_loop_stop
  simp only [replay_step, SIZEOF_REC_HEADER_eq]
  rw [if_neg h]

theorem replay_loop_zero_size {journal : Buf} {U : Nat} {s : Replay} (hU : U ≤ 65536)
    (hpos : s.pos + 4 ≤ U) (hsize : le16 journal (s.pos + 2) = 0) :
    replay_loop journal U s = some s := by
  apply replay_loop_stop
  simp only [replay_step, SIZEOF_REC_HEADER_eq, JOURNAL_BYTES_eq, hsize]
  rw [if_pos hpos, if_neg (by omega), if_pos trivial]

/-- The step of the scan on a record that is not a commit record: nothing is written. -/
theorem replay_step_no_commit {journal : Buf} {U : Nat} {s : Replay} (hU : U ≤ 65536)
    (hpos : s.pos + 4 ≤ U) (hsize : le16 journal (s.pos + 2) ≠ 0)
    (htype : le16 journal s.pos ≠ REC_COMMIT)
    (hdata : le16 journal s.pos = REC_DATA →
      s.pos + le16 journal (s.pos + 2) ≤ 65536
        ∧ s.pending_count * 4104 + le16 journal (s.pos + 2) ≤ 262656) :
    ∃ t, replay_step journal U s = .next t ∧ t.disk = s.disk
      ∧ t.pos = s.pos + le16 journal (s.pos + 2) := by
  have hlt := le16_lt journal (s.pos + 2)
  have hmod : (s.pos + le16 journal (s.pos + 2)) % 4294967296 = s.pos + le16 journal (s.pos + 2) :=
    Nat.mod_eq_of_lt (by omega)
  simp only [replay_step, SIZEOF_REC_HEADER_eq, JOURNAL_BYTES_eq, PENDING_BYTES_eq,
    SIZEOF_DATA_RECORD_eq, Nat.reducePow, hmod]
  rw [if_pos hpos, if_neg (by omega), if_neg hsize]
  by_cases hd : le16 journal s.pos = REC_DATA
  · obtain ⟨h1, h2⟩ := hdata hd
    rw [if_pos hd, if_neg (by omega)]
    exact ⟨_, rfl, rfl, rfl⟩
  · rw [if_neg hd, if_neg htype]
    exact ⟨_, rfl, rfl, rfl⟩

/-- The scan continued from a state it has reached ends as the whole scan does. -/
theorem scanned_loop {journal : Buf} {U : Nat} {s0 s : Replay}
    (hs : Scanned journal U s0 s) : replay_loop journal U s0 = replay_loop journal U s := by
  induction hs with
  | start => rfl
  | step _ hstep ih => rw [ih, replay_loop_next hstep]

theorem scanned_writes {journal : Buf} {U : Nat} {s0 s : Replay}
    (hs : Scanned journal U s0 s) : ∃ ws, s.disk.writes = s0.disk.writes ++ ws := by
  induction hs with
  | start => exact ⟨[], by simp⟩
  | step _ hstep ih =>
    obtain ⟨ws, hws⟩ := ih
    obtain ⟨ws', hws'⟩ := replay_step_next_writes hstep
    exact ⟨ws ++ ws', by rw [hws', hws, List.append_assoc]⟩

theorem replay_step_header_oob {journal : Buf} {U : Nat} {s : Replay}
    (hpos : s.pos + 4 ≤ U) (hbuf : 65536 < s.pos + 4) :
    replay_step journal U s = .undef := by
  simp only [replay_step, SIZEOF_REC_HEADER_eq, JOURNAL_BYTES_eq]
  rw [if_pos hpos, if_pos hbuf]

/-- When the scan that meets a commit record in state `s` completes in state `t`, the
writes of the commit branch lie in the log of `t` right after those made before. -/
theorem commit_writes_in_log {journal : Buf} {U : Nat} {s t : Replay}
    (hpos : s.pos + 4 ≤ U) (htype : le16 journal s.pos = 2)
    (hsize : le16 journal (s.pos + 2) ≠ 0) (hloop : replay_loop journal U s = some t) :
    ∃ after, t.disk.writes = s.disk.writes ++ commit_writes s ++ after := by
  by_cases hbuf : 65536 < s.pos + 4
  · rw [replay_loop_undef (replay_step_header_oob hpos hbuf)] at hloop
    simp at hloop
  · have hstep := @replay_step_commit journal U s hpos (by omega) htype hsize
    rw [replay_loop_next hstep] at hloop
    obtain ⟨after, hafter⟩ := replay_loop_writes 65536 _ t (by simp only; omega) hloop
    simp only [apply_pending_writes] at hafter
    exact ⟨after, by rw [hafter]; simp only [commit_writes, List.append_assoc]⟩

theorem mem_commit_writes_state (s : Replay) (i : Nat) (hi : i < s.pending_count) :
    (pending_block_no s.pending i * 4096, bytes (pending_block s.pending i) 4096)
      ∈ commit_writes s :=
  mem_commit_writes s.pending s.pending_count i hi

theorem load_journal_header_committed_disk :
    load_journal_header committed_disk
      = (committed_disk, { magic := JOURNAL_MAGIC, nbytes_used := 4116 }) := by
  rw [load_journal_header_valid (congrArg journal_header.magic disk_header_committed_disk),
    disk_header_committed_disk]

/-- The scan of `committed_disk` reaches its commit record with the data record
pending. -/
theorem committed_state_scanned (stack : Buf) :
    Scanned (read_journal committed_disk) 4116 (replay_init stack committed_disk)
      (committed_state stack) := by
  have hr := committed_disk_holds.1
  simp only [SIZEOF_DATA_RECORD_eq, SIZEOF_JOURNAL_HEADER_eq] at hr
  have hstep := @replay_step_data (read_journal committed_disk) 4116
    (replay_init stack committed_disk) 17 payload_ff (by simp [replay_init])
    (by simp [replay_init]) (by simp [replay_init]) hr
  exact Scanned.step Scanned.start hstep

/-- The checkpoint of `committed_disk` completes. -/
theorem cmd_install_committed_disk (stack : Buf) :
    cmd_install stack committed_disk
      = some (flush_journal_header
          (apply_pending (committed_state stack).pending 1 committed_disk) empty_header) := by
  have hstep : replay_step (read_journal committed_disk) 4116 (committed_state stack)
      = .next
        { disk := apply_pending (committed_state stack).pending 1 committed_disk,
          pos := 4112 + le16 (read_journal committed_disk) (4112 + 2),
          pending := (committed_state stack).pending,
          pending_count := 0 } :=
    @replay_step_commit (read_journal committed_disk) 4116 (committed_state stack)
      (by simp [committed_state]) (by simp [committed_state])
      committed_disk_commit.1
      (by show le16 (read_journal committed_disk) 4114 ≠ 0
          rw [committed_disk_commit.2]; decide)
  simp only [Nat.reduceAdd, committed_disk_commit.2] at hstep
  have hstop : replay_loop (read_journal committed_disk) 4116
      { disk := apply_pending (committed_state stack).pending 1 committed_disk,
        pos := 4116,
        pending := (committed_state stack).pending,
        pending_count := 0 }
      = some
        { disk := apply_pending (committed_state stack).pending 1 committed_disk,
          pos := 4116,
          pending := (committed_state stack).pending,
          pending_count := 0 } :=
    replay_loop_past (by simp only; omega)
  rw [cmd_install_of_valid stack committed_disk
      (congrArg journal_header.magic disk_header_committed_disk),
    disk_header_committed_disk]
  simp only
  rw [scanned_loop (committed_state_scanned stack), replay_loop_next hstep, hstop]
  rfl

theorem committed_state_record (stack : Buf) :
    pending_block_no (committed_state stack).pending 0 = 17
      ∧ bytes (pending_block (committed_state stack).pending 0) 4096 = bytes payload_ff 4096 := by
  obtain ⟨hbn, hblk⟩ := pending_of_records stack committed_disk_holds 0 (by simp) (by simp)
  simp only [List.length_singleton, List.getElem_cons_zero] at hbn hblk
  exact ⟨hbn, bytes_congr hblk⟩

/-! ## The claims -/

/-- C4. Idempotent replay: when a checkpoint of an image completes, a second
checkpoint right after it also completes and leaves every byte of the image as the
first one left it. -/
theorem install_idempotent (stack stack' : Buf) (d d1 : Disk)
    (h : cmd_install stack d = some d1) :
    ∃ d2, cmd_install stack' d1 = some d2 ∧ d2.data = d1.data := by
  obtain ⟨s, -, rfl⟩ := cmd_install_some h
  have hh := disk_header_flush_empty s.disk
  refine ⟨_, cmd_install_of_short stack' _ ?_ ?_, flush_flush_data _ _⟩
  · rw [hh]; rfl
  · rw [hh]; simp [empty_header]

theorem install_idempotent_witness :
    cmd_install fresh zero_disk = some clean_disk
      ∧ ∃ d2, cmd_install fresh clean_disk = some d2 ∧ d2.data = clean_disk.data :=
  ⟨cmd_install_zero_disk fresh,
   install_idempotent fresh fresh zero_disk clean_disk (cmd_install_zero_disk fresh)⟩

/-- C10. Log truncation: when a checkpoint completes, the header on disk has the
journal magic and 8 bytes in use; the writes of the checkpoint are those made by the
scan followed by one last write, the header block; and for every commit record met by
the scan, the block writes of all the records pending at that point (the committed
transaction, bitmaps first) stand in the write log of the checkpoint, in one run,
before that last write. -/
theorem install_truncates_log (stack : Buf) (d d' : Disk)
    (h : cmd_install stack d = some d') :
    (disk_header d').magic = JOURNAL_MAGIC ∧ (disk_header d').nbytes_used = 8
      ∧ (∃ s, replay_loop (read_journal (load_journal_header d).1)
            (load_journal_header d).2.nbytes_used
            (replay_init stack (load_journal_header d).1) = some s
          ∧ d'.writes = s.disk.writes
              ++ [(JOURNAL_BLOCK_IDX * BLOCK_SIZE, bytes (header_block empty_header) BLOCK_SIZE)]
          ∧ d'.writes.getLast?
              = some (JOURNAL_BLOCK_IDX * BLOCK_SIZE,
                  bytes (header_block empty_header) BLOCK_SIZE))
      ∧ ∀ s, Scanned (read_journal (load_journal_header d).1)
            (load_journal_header d).2.nbytes_used
            (replay_init stack (load_journal_header d).1) s →
          s.pos + SIZEOF_REC_HEADER ≤ (load_journal_header d).2.nbytes_used →
          le16 (read_journal (load_journal_header d).1) s.pos = REC_COMMIT →
          le16 (read_journal (load_journal_header d).1) (s.pos + 2) ≠ 0 →
          (∃ before after, d'.writes
              = (load_journal_header d).1.writes ++ before ++ commit_writes s ++ after
                ++ [(JOURNAL_BLOCK_IDX * BLOCK_SIZE,
                      bytes (header_block empty_header) BLOCK_SIZE)])
            ∧ ∀ i, i < s.pending_count →
                (pending_block_no s.pending i * BLOCK_SIZE,
                    bytes (pending_block s.pending i) BLOCK_SIZE) ∈ d'.writes.dropLast := by
  obtain ⟨t, ht, rfl⟩ := cmd_install_some h
  have hh := disk_header_flush_empty t.disk
  have hw : (flush_journal_header t.disk empty_header).writes
      = t.disk.writes ++ [(1 * 4096, bytes (header_block empty_header) 4096)] := rfl
  refine ⟨by rw [hh]; rfl, by rw [hh]; rfl, ⟨t, ht, rfl, ?_⟩, ?_⟩
  · simp [flush_journal_header, write_block_writes]
  · intro s hs hpos htype hsize
    simp only [SIZEOF_REC_HEADER_eq, REC_COMMIT_eq, JOURNAL_BLOCK_IDX_eq, BLOCK_SIZE_eq]
      at hpos htype ⊢
    rw [scanned_loop hs] at ht
    obtain ⟨before, hbefore⟩ := scanned_writes hs
    obtain ⟨after, hafter⟩ := commit_writes_in_log hpos htype hsize ht
    have hlog : t.disk.writes
        = (load_journal_header d).1.writes ++ before ++ commit_writes s ++ after := by
      rw [hafter, hbefore]
      rfl
    constructor
    · exact ⟨before, after, by rw [hw, hlog]⟩
    · intro i hi
      rw [hw, List.dropLast_concat, hlog]
      simp only [List.mem_append]
      exact Or.inl (Or.inr (mem_commit_writes_state s i hi))

theorem install_truncates_log_witness :
    ∃ d', cmd_install fresh committed_disk = some d'
      ∧ (disk_header d').nbytes_used = 8
      ∧ d'.writes.getLast?
          = some (JOURNAL_BLOCK_IDX * BLOCK_SIZE, bytes (header_block empty_header) BLOCK_SIZE)
      ∧ (INODE_BMAP_IDX * BLOCK_SIZE, bytes payload_ff BLOCK_SIZE) ∈ d'.writes.dropLast := by
  have h := cmd_install_committed_disk fresh
  have T := install_truncates_log fresh committed_disk _ h
  rw [load_journal_header_committed_disk] at T
  obtain ⟨-, hused, ⟨t, -, -, hlast⟩, hcommit⟩ := T
  have hmem := (hcommit (committed_state fresh) (committed_state_scanned fresh)
    (by decide) committed_disk_commit.1
    (by show le16 (read_journal committed_disk) 4114 ≠ 0
        rw [committed_disk_commit.2]; decide)).2 0 (by decide)
  rw [(committed_state_record fresh).1, BLOCK_SIZE_eq, (committed_state_record fresh).2]
    at hmem
  exact ⟨_, h, hused, hlast, hmem⟩

/-- C7. Deterministic first-fit allocation: when some bit among 0..15 of the inode
bitmap is clear, the inode chosen by create is the least index in 0..15 whose bit is
clear, every lower index having its bit set, and it is the bit that the staged bitmap
gains; for the bitmap with exactly bits 0 and 1 set the chosen inode is 2. -/
theorem alloc_inode_first_fit (bm : Buf) (h : ∃ i, i < 16 ∧ bitmap_test bm i = 0) :
    (∃ i, alloc_inode bm = some i ∧ i < 16 ∧ bitmap_test bm i = 0
        ∧ (∀ j, j < i → bitmap_test bm j = 1)
        ∧ ∀ (name : List Nat) (m m' : Metadata), m.inode_bitmap = bm →
            stage_create name m = .ok m' → m'.inode_bitmap = bitmap_set bm i)
      ∧ alloc_inode bitmap_01 = some 2 := by
  refine ⟨?_, alloc_inode_bitmap_01⟩
  obtain ⟨i, hf, hi, hp, hl⟩ :=
    find_range_least (fun i => bitmap_test bm i == 0) 16
      (by obtain ⟨i, hi, hz⟩ := h; exact ⟨i, hi, by simp [hz]⟩)
  refine ⟨i, hf, hi, by simpa using hp, ?_, ?_⟩
  · intro j hj
    have hj' := hl j hj
    rcases bitmap_test_cases bm j with h0 | h1
    · simp [h0] at hj'
    · exact h1
  · intro name m m' hm hs
    subst hm
    have hf' : alloc_inode m.inode_bitmap = some i := hf
    unfold stage_create at hs
    rw [hf'] at hs
    simp only at hs
    split at hs
    · simp at hs
    · simp only [Except.ok.injEq] at hs
      rw [← hs]

theorem alloc_inode_first_fit_witness :
    (∃ i, i < 16 ∧ bitmap_test bitmap_01 i = 0)
      ∧ (∃ i, alloc_inode bitmap_01 = some i ∧ i < 16 ∧ bitmap_test bitmap_01 i = 0
        ∧ (∀ j, j < i → bitmap_test bitmap_01 j = 1)
        ∧ ∀ (name : List Nat) (m m' : Metadata), m.inode_bitmap = bitmap_01 →
            stage_create name m = .ok m' → m'.inode_bitmap = bitmap_set bitmap_01 i)
      ∧ alloc_inode bitmap_01 = some 2 :=
  ⟨⟨2, by decide, by decide⟩, alloc_inode_first_fit bitmap_01 ⟨2, by decide, by decide⟩⟩

/-- C5. Bitmap-first write ordering: when the scan meets a commit record, the block
writes it issues are the pending records destined for block 17 in log order, then
those destined for block 18 in log order, then all the others in log order; so no
write to a non-bitmap block precedes a write to a bitmap block. -/
theorem commit_writes_bitmaps_first (journal : Buf) (nbytes_used : Nat) (s : Replay)
    (hpos : s.pos + 4 ≤ nbytes_used) (hbuf : s.pos + 4 ≤ JOURNAL_BYTES)
    (htype : le16 journal s.pos = REC_COMMIT) (hsize : le16 journal (s.pos + 2) ≠ 0) :
    ∃ s', replay_step journal nbytes_used s = .next s'
      ∧ s'.disk.writes
          = s.disk.writes
            ++ pending_writes (fun b => b == INODE_BMAP_IDX) s.pending s.pending_count
            ++ pending_writes (fun b => b == DATA_BMAP_IDX) s.pending s.pending_count
            ++ pending_writes (fun b => b != INODE_BMAP_IDX && b != DATA_BMAP_IDX)
                s.pending s.pending_count
      ∧ (∀ w ∈ pending_writes (fun b => b == INODE_BMAP_IDX) s.pending s.pending_count,
          w.1 = INODE_BMAP_IDX * BLOCK_SIZE)
      ∧ (∀ w ∈ pending_writes (fun b => b == DATA_BMAP_IDX) s.pending s.pending_count,
          w.1 = DATA_BMAP_IDX * BLOCK_SIZE)
      ∧ (∀ w ∈ pending_writes (fun b => b != INODE_BMAP_IDX && b != DATA_BMAP_IDX)
            s.pending s.pending_count,
          w.1 ≠ INODE_BMAP_IDX * BLOCK_SIZE ∧ w.1 ≠ DATA_BMAP_IDX * BLOCK_SIZE) := by
  refine ⟨{ s with
      disk := apply_pending s.pending s.pending_count s.disk
      pending_count := 0
      pos := (s.pos + le16 journal (s.pos + 2)) % 2 ^ 32 }, ?_, ?_, ?_, ?_, ?_⟩
  · simp only [JOURNAL_BYTES_eq, REC_COMMIT_eq] at hbuf htype
    simp only [replay_step, SIZEOF_REC_HEADER_eq, JOURNAL_BYTES_eq, REC_DATA_eq, REC_COMMIT_eq,
      htype]
    rw [if_pos hpos, if_neg (by omega), if_neg hsize]
    simp
  · exact apply_pending_writes _ _ _
  · intro w hw
    obtain ⟨i, -, hs, rfl⟩ := mem_pending_writes hw
    simp only [beq_iff_eq] at hs
    simp [hs]
  · intro w hw
    obtain ⟨i, -, hs, rfl⟩ := mem_pending_writes hw
    simp only [beq_iff_eq] at hs
    simp [hs]
  · intro w hw
    obtain ⟨i, -, hs, rfl⟩ := mem_pending_writes hw
    simp only [Bool.and_eq_true, bne_iff_ne, ne_eq, INODE_BMAP_IDX_eq, DATA_BMAP_IDX_eq] at hs
    simp only [INODE_BMAP_IDX_eq, DATA_BMAP_IDX_eq, BLOCK_SIZE_eq]
    omega

theorem commit_writes_bitmaps_first_witness :
    (replay_sample.pos + 4 ≤ 12 ∧ le16 commit_only_journal replay_sample.pos = REC_COMMIT)
      ∧ ∃ s', replay_step commit_only_journal 12 replay_sample = .next s'
        ∧ s'.disk.writes
            = replay_sample.disk.writes
              ++ pending_writes (fun b => b == INODE_BMAP_IDX) replay_sample.pending
                  replay_sample.pending_count
              ++ pending_writes (fun b => b == DATA_BMAP_IDX) replay_sample.pending
                  replay_sample.pending_count
              ++ pending_writes (fun b => b != INODE_BMAP_IDX && b != DATA_BMAP_IDX)
                  replay_sample.pending replay_sample.pending_count
        ∧ (∀ w ∈ pending_writes (fun b => b == INODE_BMAP_IDX) replay_sample.pending
              replay_sample.pending_count, w.1 = INODE_BMAP_IDX * BLOCK_SIZE)
        ∧ (∀ w ∈ pending_writes (fun b => b == DATA_BMAP_IDX) replay_sample.pending
              replay_sample.pending_count, w.1 = DATA_BMAP_IDX * BLOCK_SIZE)
        ∧ (∀ w ∈ pending_writes (fun b => b != INODE_BMAP_IDX && b != DATA_BMAP_IDX)
              replay_sample.pending replay_sample.pending_count,
            w.1 ≠ INODE_BMAP_IDX * BLOCK_SIZE ∧ w.1 ≠ DATA_BMAP_IDX * BLOCK_SIZE) :=
  ⟨⟨by decide, by decide⟩,
   commit_writes_bitmaps_first commit_only_journal 12 replay_sample (by decide) (by decide)
     (by decide) (by decide)⟩

/-- C9. Create never writes metadata in place: on an image whose journal is empty
(valid magic, 8 bytes in use) create completes, every write it issues lies inside the
journal region (blocks 1..16), and every byte outside that region, so the bitmaps, the
inode table and the root directory, is as before the call. -/
theorem create_leaves_metadata_in_place (stack : Buf) (name : List Nat) (d : Disk)
    (hm : (disk_header d).magic = JOURNAL_MAGIC) (hu : (disk_header d).nbytes_used = 8) :
    ∃ r, cmd_create stack name d = some r
      ∧ (∀ a, a < JOURNAL_BLOCK_IDX * BLOCK_SIZE ∨ INODE_BMAP_IDX * BLOCK_SIZE ≤ a →
          r.1.data a = d.data a)
      ∧ ∃ ws, r.1.writes = d.writes ++ ws
          ∧ ∀ w ∈ ws, JOURNAL_BLOCK_IDX * BLOCK_SIZE ≤ w.1
              ∧ w.1 + w.2.length ≤ INODE_BMAP_IDX * BLOCK_SIZE := by
  have hi := cmd_install_of_short stack d hm (by omega)
  obtain ⟨hdata, ws, hws, hin⟩ := create_with_frame name (flush_journal_header d empty_header)
  refine ⟨_, cmd_create_of_install name hi, ?_, ?_⟩
  · intro a ha
    simp only [JOURNAL_BLOCK_IDX_eq, BLOCK_SIZE_eq, INODE_BMAP_IDX_eq] at ha
    rw [hdata a (by omega), flush_data_outside _ _ _ (by omega)]
  · refine ⟨(4096, bytes (header_block empty_header) 4096) :: ws, ?_, ?_⟩
    · rw [hws]
      simp [flush_journal_header, write_block_writes]
    · intro w hw
      simp only [JOURNAL_BLOCK_IDX_eq, BLOCK_SIZE_eq, INODE_BMAP_IDX_eq]
      rcases List.mem_cons.mp hw with rfl | hw
      · simp
      · exact hin w hw

theorem create_leaves_metadata_in_place_witness :
    ((disk_header clean_disk).magic = JOURNAL_MAGIC
        ∧ (disk_header clean_disk).nbytes_used = 8)
      ∧ ∃ r, cmd_create fresh [97, 46, 116, 120, 116] clean_disk = some r
        ∧ (∀ a, a < JOURNAL_BLOCK_IDX * BLOCK_SIZE ∨ INODE_BMAP_IDX * BLOCK_SIZE ≤ a →
            r.1.data a = clean_disk.data a)
        ∧ ∃ ws, r.1.writes = clean_disk.writes ++ ws
            ∧ ∀ w ∈ ws, JOURNAL_BLOCK_IDX * BLOCK_SIZE ≤ w.1
                ∧ w.1 + w.2.length ≤ INODE_BMAP_IDX * BLOCK_SIZE :=
  ⟨⟨congrArg journal_header.magic (disk_header_flush_empty _),
    congrArg journal_header.nbytes_used (disk_header_flush_empty _)⟩,
   create_leaves_metadata_in_place fresh [97, 46, 116, 120, 116] clean_disk
    (congrArg journal_header.magic (disk_header_flush_empty _))
    (congrArg journal_header.nbytes_used (disk_header_flush_empty _))⟩

/-- C6, amended. Failure atomicity of create on a checkpointed image: when the header
block is the zero-padded empty header that a checkpoint leaves, and inode bitmap bits
0..15 are all set or no root directory entry has inode field 0, create reports the
failure (no free inode in the first case), leaves every byte of the image as it was,
and issues a single write, the header block of its initial checkpoint, so that no
record is appended. -/
theorem create_failure_atomic (stack : Buf) (name : List Nat) (d : Disk)
    (hclean : ∀ k, k < 4096 → d.data (4096 + k) = header_block empty_header k)
    (hfull : (∀ i, i < 16 → bitmap_test (read_block d INODE_BMAP_IDX fresh 0) i = 1)
      ∨ (∀ i, i < 128 → le32 (read_block d DATA_START_IDX fresh 0) (i * 32) ≠ 0)) :
    ∃ d' st, cmd_create stack name d = some (d', st)
      ∧ (st = .no_free_inodes ∨ st = .root_directory_full)
      ∧ ((∀ i, i < 16 → bitmap_test (read_block d INODE_BMAP_IDX fresh 0) i = 1) →
          st = .no_free_inodes)
      ∧ d'.data = d.data
      ∧ d'.writes = d.writes
          ++ [(JOURNAL_BLOCK_IDX * BLOCK_SIZE, bytes (header_block empty_header) BLOCK_SIZE)] := by
  have hh := disk_header_of_clean hclean
  have hi := cmd_install_of_short stack d (by rw [hh]; rfl) (by rw [hh]; simp [empty_header])
  have hd := flush_data_of_clean hclean
  have hmeta := read_metadata_congr hd
  have hc := cmd_create_of_install name hi
  have key : ∀ e, stage_create name (read_metadata d) = .error e →
      cmd_create stack name d = some (flush_journal_header d empty_header, e) := by
    intro e he
    rw [hc, create_with_error _ (by rw [hmeta]; exact he)]
  have hnf : (∀ i, i < 16 → bitmap_test (read_block d INODE_BMAP_IDX fresh 0) i = 1) →
      stage_create name (read_metadata d) = .error .no_free_inodes :=
    fun h => stage_create_no_free_inodes name _ h
  have hex : ∃ e, stage_create name (read_metadata d) = .error e
      ∧ (e = .no_free_inodes ∨ e = .root_directory_full) := by
    rcases hfull with h | h
    · exact ⟨_, hnf h, Or.inl rfl⟩
    · rcases stage_create_directory_full name (read_metadata d) h with h' | h'
      · exact ⟨_, h', Or.inl rfl⟩
      · exact ⟨_, h', Or.inr rfl⟩
  obtain ⟨e, he, hcase⟩ := hex
  refine ⟨_, e, key e he, hcase, ?_, hd, rfl⟩
  intro h
  have := hnf h
  rw [he] at this
  injection this

theorem create_failure_atomic_witness :
    (∀ k, k < 4096 → full_clean_disk.data (4096 + k) = header_block empty_header k)
      ∧ ∃ d' st, cmd_create fresh name_a full_clean_disk = some (d', st)
        ∧ (st = .no_free_inodes ∨ st = .root_directory_full)
        ∧ ((∀ i, i < 16 →
              bitmap_test (read_block full_clean_disk INODE_BMAP_IDX fresh 0) i = 1) →
            st = .no_free_inodes)
        ∧ d'.data = full_clean_disk.data
        ∧ d'.writes = full_clean_disk.writes
            ++ [(JOURNAL_BLOCK_IDX * BLOCK_SIZE,
                  bytes (header_block empty_header) BLOCK_SIZE)] :=
  ⟨full_clean_disk_header,
   create_failure_atomic fresh name_a full_clean_disk full_clean_disk_header
     (Or.inl full_clean_disk_bitmap)⟩

/-- C6 as stated fails: on an image with inode bitmap bits 0..15 set whose journal
holds a committed (empty) transaction, create reports that no inode is free, yet the
stored count of journal bytes in use changes from 12 to 8. -/
theorem create_failure_changes_image :
    (∀ i, i < 16 → bitmap_test (read_block full_disk INODE_BMAP_IDX fresh 0) i = 1)
      ∧ ∃ d', cmd_create fresh name_a full_disk = some (d', CreateStatus.no_free_inodes)
          ∧ d'.data 4100 = 8 ∧ full_disk.data 4100 = 12 := by
  refine ⟨full_disk_bitmap, flush_journal_header full_disk empty_header, ?_, ?_, ?_⟩
  · rw [cmd_create_of_install name_a (cmd_install_full_disk fresh)]
    rw [create_with_error]
    apply stage_create_no_free_inodes
    intro i hi
    have h := full_disk_bitmap i hi
    have hb : (read_metadata (flush_journal_header full_disk empty_header)).inode_bitmap
        = read_block full_disk INODE_BMAP_IDX fresh 0 := by
      funext k
      simp only [read_metadata, read_block_apply, INODE_BMAP_IDX_eq, fresh_apply]
      split_ifs with hk
      · rw [flush_data_outside _ _ _ (by omega)]
      · rfl
    rw [hb]
    exact h
  · rw [flush_data_inside _ _ _ (by omega)]
    simp [header_block, empty_header]
  · simp [full_disk, flush_journal_header, write_block_data, header_block]

/-- C8 fails on the code: after `a.txt` is staged on an all-zero bitmap and directory,
staging `b.txt` sets bits 0 and 1 of the inode bitmap but puts {inode 1, `b.txt`} in
directory entry 0, over the entry of `a.txt` (whose inode field 0 reads as free), and
leaves the rest of the directory block zero, so there is no second entry. -/
theorem second_create_overwrites_first_entry :
    stage_create name_a zero_metadata = .ok metadata_a
      ∧ stage_create name_b metadata_a = .ok metadata_ab
      ∧ le32 metadata_a.root_dir_block 0 = 0
      ∧ bytes (buf_at metadata_a.root_dir_block 4) 5 = name_a
      ∧ bitmap_test metadata_ab.inode_bitmap 0 = 1
      ∧ bitmap_test metadata_ab.inode_bitmap 1 = 1
      ∧ le32 metadata_ab.root_dir_block 0 = 1
      ∧ bytes (buf_at metadata_ab.root_dir_block 4) 5 = name_b
      ∧ ∀ k, 32 ≤ k → metadata_ab.root_dir_block k = 0 :=
  ⟨stage_create_a, stage_create_b, by decide, by decide, by decide, by decide, by decide,
    by decide, metadata_ab_dir_rest⟩

/-- C1 fails on the code: on the all-zero image `create a.txt` commits, and the
checkpoint that follows completes, yet the root directory block and the inode bitmap
block are still all zero (bit 0 is clear): the header flush at the end of create
zeroes the first journal block after the header, so the scan stops at once. -/
theorem create_then_install_applies_nothing :
    ∃ d2 d3, cmd_create fresh name_a zero_disk = some (d2, .committed)
      ∧ cmd_install fresh d2 = some d3
      ∧ (∀ k, k < BLOCK_SIZE → d3.data (DATA_START_IDX * BLOCK_SIZE + k) = 0)
      ∧ (∀ k, k < BLOCK_SIZE → d3.data (INODE_BMAP_IDX * BLOCK_SIZE + k) = 0)
      ∧ bitmap_test (read_block d3 INODE_BMAP_IDX fresh 0) 0 = 0 := by
  obtain ⟨d2, h2⟩ := cmd_create_zero_disk
  obtain ⟨d1, d3, h1, h3, hd⟩ := @create_then_install fresh fresh name_a zero_disk d2 h2
  rw [cmd_install_zero_disk] at h1
  simp only [Option.some.injEq] at h1
  subst h1
  have h21 : ∀ k, k < 4096 → d3.data (DATA_START_IDX * BLOCK_SIZE + k) = 0 := by
    intro k hk
    simp only [DATA_START_IDX_eq, BLOCK_SIZE_eq]
    rw [hd _ (by omega), clean_disk_data_outside _ (by omega)]
  have h17 : ∀ k, k < 4096 → d3.data (INODE_BMAP_IDX * BLOCK_SIZE + k) = 0 := by
    intro k hk
    simp only [INODE_BMAP_IDX_eq, BLOCK_SIZE_eq]
    rw [hd _ (by omega), clean_disk_data_outside _ (by omega)]
  refine ⟨d2, d3, h2, h3, h21, h17, ?_⟩
  have h0 := h17 0 (by omega)
  simp only [INODE_BMAP_IDX_eq, BLOCK_SIZE_eq, Nat.add_zero] at h0
  simp [bitmap_test, read_block_apply, h0]

/-- C2. Atomic visibility: on an image with a valid journal header with `U ≥ 8` bytes
in use, after the data records of a transaction and its commit record are appended
within the journal capacity and the header is not flushed, the checkpoint ends as the
checkpoint of the image before the appends does, and leaves the same bytes outside the
journal region; when `U = 8` it completes and every byte outside the journal region is
as before the appends. -/
theorem unflushed_transaction_invisible (stack : Buf) (d : Disk) (recs : List (Nat × Buf))
    (U : Nat) (hm : (disk_header d).magic = JOURNAL_MAGIC)
    (hU : (disk_header d).nbytes_used = U) (h8 : 8 ≤ U)
    (hcap : U + recs.length * SIZEOF_DATA_RECORD + SIZEOF_REC_HEADER ≤ JOURNAL_BYTES) :
    same_outside_journal (cmd_install stack (append_unflushed d recs)) (cmd_install stack d)
      ∧ (U = 8 → ∃ d1, cmd_install stack (append_unflushed d recs) = some d1
          ∧ ∀ a, outside_journal a → d1.data a = d.data a) := by
  simp only [SIZEOF_DATA_RECORD_eq, SIZEOF_REC_HEADER_eq, JOURNAL_BYTES_eq] at hcap
  subst hU
  have hh := disk_header_append_unflushed d recs h8 hcap
  have hne : ¬ (disk_header d).magic ≠ JOURNAL_MAGIC := by simpa using hm
  constructor
  · rw [cmd_install_eq, cmd_install_eq, load_journal_header_eq, load_journal_header_eq, hh,
      if_neg hne, if_neg hne]
    simp only
    apply same_outside_journal_install
    apply replay_loop_rel _ 65536
    · simp only [replay_init]; omega
    · refine ⟨rfl, rfl, ?_, fun _ => rfl⟩
      intro a ha
      simp only [outside_journal, JOURNAL_BLOCK_IDX_eq, JOURNAL_BLOCKS_eq, BLOCK_SIZE_eq] at ha
      exact append_unflushed_data d recs a hcap (by omega)
    · intro k hk
      rw [read_journal_apply, read_journal_apply]
      split_ifs
      · exact append_unflushed_data d recs _ hcap (by omega)
      · rfl
  · intro h
    refine ⟨_, cmd_install_of_short stack _ (by rw [hh]; exact hm) (by rw [hh]; omega), ?_⟩
    intro a ha
    simp only [outside_journal, JOURNAL_BLOCK_IDX_eq, JOURNAL_BLOCKS_eq, BLOCK_SIZE_eq] at ha
    rw [flush_data_outside _ _ _ (by omega)]
    exact append_unflushed_data d recs a hcap (by omega)

theorem unflushed_transaction_invisible_witness :
    ((disk_header clean_disk).magic = JOURNAL_MAGIC
        ∧ (disk_header clean_disk).nbytes_used = 8)
      ∧ same_outside_journal (cmd_install fresh (append_unflushed clean_disk [(17, fresh)]))
          (cmd_install fresh clean_disk)
      ∧ (8 = 8 → ∃ d1, cmd_install fresh (append_unflushed clean_disk [(17, fresh)]) = some d1
          ∧ ∀ a, outside_journal a → d1.data a = clean_disk.data a) :=
  ⟨⟨congrArg journal_header.magic (disk_header_flush_empty _),
    congrArg journal_header.nbytes_used (disk_header_flush_empty _)⟩,
   unflushed_transaction_invisible fresh clean_disk [(17, fresh)] 8
    (congrArg journal_header.magic (disk_header_flush_empty _))
    (congrArg journal_header.nbytes_used (disk_header_flush_empty _))
    (by decide) (by decide)⟩

/-- C3. All-or-nothing application: let the journal of an image with a valid header
and `U ≤ 65536` bytes in use hold, from offset 8 on, `N` well-formed data records with
pairwise distinct destination blocks outside the journal region.  When a commit
record follows them as the last record below `U`, the checkpoint completes and every
one of the `N` destination blocks holds the payload of its record.  When no record
header fits below `U` after some of them, or the record that follows the `N` records
has size zero, the checkpoint completes, its only write is the header block, and none
of the `N` destination blocks changes.  Whatever follows a commit record whose header
lies below `U`, a checkpoint that completes has issued the block write of each of the
`N` records. -/
theorem checkpoint_all_or_nothing (stack : Buf) (d : Disk) (recs : List (Nat × Buf)) (U : Nat)
    (hm : (disk_header d).magic = JOURNAL_MAGIC) (hU : (disk_header d).nbytes_used = U)
    (hcap : U ≤ JOURNAL_BYTES)
    (hfit : SIZEOF_JOURNAL_HEADER + recs.length * SIZEOF_DATA_RECORD ≤ JOURNAL_BYTES)
    (hrec : holds_records (read_journal d) SIZEOF_JOURNAL_HEADER recs)
    (hdist : (recs.map Prod.fst).Nodup)
    (hout : ∀ r ∈ recs, r.1 < 2 ^ 32
      ∧ (r.1 < JOURNAL_BLOCK_IDX ∨ JOURNAL_BLOCK_IDX + JOURNAL_BLOCKS ≤ r.1)) :
    ((8 + recs.length * 4104 + 4 ≤ U
          ∧ le16 (read_journal d) (8 + recs.length * 4104) = REC_COMMIT
          ∧ le16 (read_journal d) (8 + recs.length * 4104 + 2) ≠ 0
          ∧ U < 8 + recs.length * 4104 + le16 (read_journal d) (8 + recs.length * 4104 + 2) + 4) →
        ∃ d', cmd_install stack d = some d'
          ∧ ∀ r ∈ recs, ∀ k, k < BLOCK_SIZE → d'.data (r.1 * BLOCK_SIZE + k) = r.2 k)
      ∧ ((U < 8 + recs.length * 4104 + 4
            ∨ (8 + recs.length * 4104 + 4 ≤ U
                ∧ le16 (read_journal d) (8 + recs.length * 4104 + 2) = 0)) →
          ∃ d', cmd_install stack d = some d'
            ∧ d'.writes = d.writes
                ++ [(JOURNAL_BLOCK_IDX * BLOCK_SIZE, bytes (header_block empty_header) BLOCK_SIZE)]
            ∧ ∀ r ∈ recs, ∀ k, k < BLOCK_SIZE →
                d'.data (r.1 * BLOCK_SIZE + k) = d.data (r.1 * BLOCK_SIZE + k))
      ∧ ((8 + recs.length * 4104 + 4 ≤ U
            ∧ le16 (read_journal d) (8 + recs.length * 4104) = REC_COMMIT
            ∧ le16 (read_journal d) (8 + recs.length * 4104 + 2) ≠ 0) →
          ∀ d', cmd_install stack d = some d' →
            ∃ ws, d'.writes = d.writes ++ ws
              ∧ ∀ r ∈ recs, (r.1 * BLOCK_SIZE, bytes r.2 BLOCK_SIZE) ∈ ws) := by
  simp only [JOURNAL_BYTES_eq, SIZEOF_JOURNAL_HEADER_eq, SIZEOF_DATA_RECORD_eq,
    JOURNAL_BLOCK_IDX_eq, JOURNAL_BLOCKS_eq, BLOCK_SIZE_eq, REC_COMMIT_eq, Nat.reducePow,
    Nat.reduceAdd] at hcap hfit hrec hout ⊢
  subst hU
  have hlen : recs.length ≤ 15 := by omega
  obtain ⟨hall, hnone⟩ := @replay_loop_records (read_journal d)
    (disk_header d).nbytes_used recs (replay_init stack d) hrec
    (by simp only [replay_init, SIZEOF_JOURNAL_HEADER_eq]; omega)
    (by simp only [replay_init]; omega)
  simp only [replay_init, SIZEOF_JOURNAL_HEADER_eq, Nat.zero_add] at hall hnone
  rw [cmd_install_of_valid stack d hm]
  simp only [replay_init, SIZEOF_JOURNAL_HEADER_eq]
  refine ⟨?_, ?_, ?_⟩
  · rintro ⟨hpos, htype, hsize, hlast⟩
    have hstep : replay_step (read_journal d) (disk_header d).nbytes_used
        { disk := d, pos := 8 + recs.length * 4104,
          pending := copy_records (read_journal d) recs.length 8 0 stack,
          pending_count := recs.length }
        = .next
          { disk := apply_pending (copy_records (read_journal d) recs.length 8 0 stack)
              recs.length d,
            pos := 8 + recs.length * 4104 + le16 (read_journal d) (8 + recs.length * 4104 + 2),
            pending := copy_records (read_journal d) recs.length 8 0 stack,
            pending_count := 0 } :=
      replay_step_commit hpos (by simp only; omega) htype hsize
    have hstop : replay_loop (read_journal d) (disk_header d).nbytes_used
        { disk := apply_pending (copy_records (read_journal d) recs.length 8 0 stack)
            recs.length d,
          pos := 8 + recs.length * 4104 + le16 (read_journal d) (8 + recs.length * 4104 + 2),
          pending := copy_records (read_journal d) recs.length 8 0 stack,
          pending_count := 0 }
        = some
          { disk := apply_pending (copy_records (read_journal d) recs.length 8 0 stack)
              recs.length d,
            pos := 8 + recs.length * 4104 + le16 (read_journal d) (8 + recs.length * 4104 + 2),
            pending := copy_records (read_journal d) recs.length 8 0 stack,
            pending_count := 0 } := by
      apply replay_loop_stop
      simp only [replay_step, SIZEOF_REC_HEADER_eq]
      rw [if_neg (by omega)]
    rw [hall hpos, replay_loop_next hstep, hstop]
    refine ⟨_, rfl, ?_⟩
    intro r hr k hk
    obtain ⟨i, hi, rfl⟩ := List.mem_iff_getElem.mp hr
    obtain ⟨hb, hjr⟩ := hout _ hr
    obtain ⟨hbn, hblk⟩ := pending_of_records stack hrec i hi hb
    rw [flush_data_outside _ _ _ (by omega), ← hbn,
      apply_pending_data_written _ _ _ i k hi hk, hblk k hk]
    intro i' hi' hne heq
    have hm' : recs[i'] ∈ recs := List.mem_iff_getElem.mpr ⟨i', hi', rfl⟩
    obtain ⟨hbn', -⟩ := pending_of_records stack hrec i' hi' (hout _ hm').1
    rw [hbn, hbn'] at heq
    have hl : i < (recs.map Prod.fst).length := by simpa using hi
    have hl' : i' < (recs.map Prod.fst).length := by simpa using hi'
    have hmap : (recs.map Prod.fst)[i'] = (recs.map Prod.fst)[i] := by
      simp only [List.getElem_map]
      exact heq
    exact hne ((hdist.getElem_inj_iff).mp hmap)
  · intro hcase
    have hloop : ∃ t, replay_loop (read_journal d) (disk_header d).nbytes_used
        { disk := d, pos := 8, pending := stack, pending_count := 0 } = some t
          ∧ t.disk = d := by
      rcases hcase with hlt | ⟨hpos, hsize⟩
      · exact hnone hlt
      · refine ⟨{ disk := d, pos := 8 + recs.length * 4104,
                  pending := copy_records (read_journal d) recs.length 8 0 stack,
                  pending_count := recs.length }, ?_, rfl⟩
        rw [hall hpos]
        apply replay_loop_stop
        simp only [replay_step, SIZEOF_REC_HEADER_eq, JOURNAL_BYTES_eq, hsize]
        rw [if_pos hpos, if_neg (by omega), if_pos trivial]
    obtain ⟨t, ht, htd⟩ := hloop
    rw [ht]
    simp only [Option.map_some']
    rw [htd]
    refine ⟨_, rfl, rfl, ?_⟩
    intro r hr k hk
    obtain ⟨-, hjr⟩ := hout _ hr
    rw [flush_data_outside _ _ _ (by omega)]
  · rintro ⟨hpos, htype, hsize⟩ d' hd'
    have hstep : replay_step (read_journal d) (disk_header d).nbytes_used
        { disk := d, pos := 8 + recs.length * 4104,
          pending := copy_records (read_journal d) recs.length 8 0 stack,
          pending_count := recs.length }
        = .next
          { disk := apply_pending (copy_records (read_journal d) recs.length 8 0 stack)
              recs.length d,
            pos := 8 + recs.length * 4104 + le16 (read_journal d) (8 + recs.length * 4104 + 2),
            pending := copy_records (read_journal d) recs.length 8 0 stack,
            pending_count := 0 } :=
      replay_step_commit hpos (by simp only; omega) htype hsize
    rw [hall hpos, replay_loop_next hstep] at hd'
    cases hl : replay_loop (read_journal d) (disk_header d).nbytes_used
        { disk := apply_pending (copy_records (read_journal d) recs.length 8 0 stack)
            recs.length d,
          pos := 8 + recs.length * 4104 + le16 (read_journal d) (8 + recs.length * 4104 + 2),
          pending := copy_records (read_journal d) recs.length 8 0 stack,
          pending_count := 0 } with
    | none => rw [hl] at hd'; simp at hd'
    | some t =>
      rw [hl] at hd'
      simp only [Option.map_some', Option.some.injEq] at hd'
      obtain ⟨ws2, hws2⟩ := replay_loop_writes 65536 _ t (by simp only; omega) hl
      simp only [apply_pending_writes] at hws2
      refine ⟨pending_writes (fun b => b == INODE_BMAP_IDX)
            (copy_records (read_journal d) recs.length 8 0 stack) recs.length
          ++ pending_writes (fun b => b == DATA_BMAP_IDX)
            (copy_records (read_journal d) recs.length 8 0 stack) recs.length
          ++ pending_writes (fun b => b != INODE_BMAP_IDX && b != DATA_BMAP_IDX)
            (copy_records (read_journal d) recs.length 8 0 stack) recs.length
          ++ ws2 ++ [(1 * 4096, bytes (header_block empty_header) 4096)], ?_, ?_⟩
      · rw [← hd']
        simp only [flush_journal_header, write_block_writes, hws2, List.append_assoc,
          JOURNAL_BLOCK_IDX_eq]
      · intro r hr
        obtain ⟨i, hi, rfl⟩ := List.mem_iff_getElem.mp hr
        obtain ⟨hb, -⟩ := hout _ hr
        obtain ⟨hbn, hblk⟩ := pending_of_records stack hrec i hi hb
        have hmem := mem_commit_writes (copy_records (read_journal d) recs.length 8 0 stack)
          recs.length i hi
        rw [hbn, bytes_congr hblk] at hmem
        simp only [List.mem_append] at hmem ⊢
        tauto

theorem checkpoint_all_or_nothing_witness :
    ∃ d', cmd_install fresh committed_disk = some d'
      ∧ ∀ r ∈ [(17, payload_ff)], ∀ k, k < BLOCK_SIZE → d'.data (r.1 * BLOCK_SIZE + k) = r.2 k :=
  (checkpoint_all_or_nothing fresh committed_disk [(17, payload_ff)] 4116
    (congrArg journal_header.magic disk_header_committed_disk)
    (congrArg journal_header.nbytes_used disk_header_committed_disk)
    (by decide) (by decide) committed_disk_holds (by simp)
    (by intro r hr; simp only [List.mem_singleton] at hr; subst hr; decide)).1
    ⟨by decide, committed_disk_commit.1,
     by simp only [List.length_singleton, Nat.one_mul, Nat.reduceAdd, committed_disk_commit.2]
        decide,
     by simp only [List.length_singleton, Nat.one_mul, Nat.reduceAdd, committed_disk_commit.2]
        decide⟩

/-- C11. Opening the journal is idempotent: when the stored magic is the journal magic
`load_journal_header` leaves the image as it is, without a write, and returns the
stored header; otherwise it returns the header {magic, 8 bytes in use} and that header
is the one stored afterwards; in both cases a second call returns the same header and
leaves the image as the first call left it, without a write. -/
theorem load_journal_header_idempotent (d : Disk) :
    load_journal_header d
        = (if (disk_header d).magic = JOURNAL_MAGIC then (d, disk_header d)
            else (write_block d JOURNAL_BLOCK_IDX (header_block empty_header), empty_header))
      ∧ disk_header (load_journal_header d).1 = (load_journal_header d).2
      ∧ (load_journal_header d).2.magic = JOURNAL_MAGIC
      ∧ load_journal_header (load_journal_header d).1 = load_journal_header d := by
  by_cases h : (disk_header d).magic = JOURNAL_MAGIC
  · have hl := load_journal_header_valid h
    rw [hl, if_pos h]
    exact ⟨rfl, rfl, h, hl⟩
  · have hl := load_journal_header_uninit h
    rw [hl, if_neg h]
    refine ⟨rfl, disk_header_flush_empty d, rfl, ?_⟩
    exact load_journal_header_flush_empty d

/-- C17. Bitmap codec laws: for a block-sized bitmap and indices `i`, `j` below 32768,
after `bitmap_set` of bit `i` the test of bit `i` returns 1, the test of every other
bit `j` returns what it returned before, setting bit `i` a second time gives the same
bitmap, and `bitmap_test` returns 0 or 1. -/
theorem bitmap_codec_laws (bm : Buf) (i j : Nat) (_hi : i < 8 * BLOCK_SIZE)
    (_hj : j < 8 * BLOCK_SIZE) :
    bitmap_test (bitmap_set bm i) i = 1
      ∧ (j ≠ i → bitmap_test (bitmap_set bm i) j = bitmap_test bm j)
      ∧ bitmap_set (bitmap_set bm i) i = bitmap_set bm i
      ∧ (bitmap_test bm j = 0 ∨ bitmap_test bm j = 1) := by
  refine ⟨?_, ?_, bitmap_set_set bm i, bitmap_test_cases bm j⟩
  · rw [bitmap_test_set, if_pos rfl]
  · intro h
    rw [bitmap_test_set, if_neg h]

theorem bitmap_codec_laws_witness :
    bitmap_test (bitmap_set bitmap_01 2) 2 = 1
      ∧ (1 ≠ 2 → bitmap_test (bitmap_set bitmap_01 2) 1 = bitmap_test bitmap_01 1)
      ∧ bitmap_set (bitmap_set bitmap_01 2) 2 = bitmap_set bitmap_01 2
      ∧ (bitmap_test bitmap_01 1 = 0 ∨ bitmap_test bitmap_01 1 = 1) :=
  bitmap_codec_laws bitmap_01 2 1 (by decide) (by decide)

/-- C20. Replay always terminates: with at most 65536 bytes in use, an iteration of the
scan that does not leave the loop advances the offset by the declared size of the
record, which is at least 1, without 32-bit wrap-around, so that bytes in use minus
offset strictly decreases; the loop is left, by the loop condition, by `break` or by
an out-of-bounds copy of a data record, within `bytes_used - offset + 1` evaluations
of the loop condition. -/
theorem replay_terminates (journal : Buf) (U : Nat) (hU : U ≤ JOURNAL_BYTES) :
    (∀ s t, replay_step journal U s = .next t →
        1 ≤ le16 journal (s.pos + 2)
          ∧ s.pos + le16 journal (s.pos + 2) < 2 ^ 32
          ∧ t.pos = s.pos + le16 journal (s.pos + 2)
          ∧ U - t.pos < U - s.pos)
      ∧ (∀ s, replay_step journal U s = .undef → le16 journal s.pos = REC_DATA)
      ∧ ∀ s, replay_fuel journal U (U - s.pos + 1) s = some (replay_loop journal U s) := by
  simp only [JOURNAL_BYTES_eq] at hU
  refine ⟨?_, fun s h => replay_step_undef_data hU h, fun s => replay_fuel_enough _ _ _ s (by omega)⟩
  intro s t h
  obtain ⟨hb, hp, hne, hpos⟩ := replay_step_next h
  have hlt := le16_lt journal (s.pos + 2)
  simp only [JOURNAL_BYTES_eq] at hb
  refine ⟨by omega, by norm_num; omega, hpos, by omega⟩

theorem replay_terminates_witness :
    (∀ s t, replay_step commit_only_journal 12 s = .next t →
        1 ≤ le16 commit_only_journal (s.pos + 2)
          ∧ s.pos + le16 commit_only_journal (s.pos + 2) < 2 ^ 32
          ∧ t.pos = s.pos + le16 commit_only_journal (s.pos + 2)
          ∧ 12 - t.pos < 12 - s.pos)
      ∧ (∀ s, replay_step commit_only_journal 12 s = .undef →
          le16 commit_only_journal s.pos = REC_DATA)
      ∧ ∀ s, replay_fuel commit_only_journal 12 (12 - s.pos + 1) s
          = some (replay_loop commit_only_journal 12 s) :=
  replay_terminates commit_only_journal 12 (by decide)

/-- C19. Pending buffer stays in bounds on well-formed logs: with at most 65536 bytes
in use, when every record of type Data met by the scan declares size 4104, the count
of pending records is at most 16 at every loop head of the scan, so below the 64
entries of `pending[]`. -/
theorem pending_count_bounded (journal : Buf) (U : Nat) (stack : Buf) (d : Disk)
    (hU : U ≤ JOURNAL_BYTES)
    (hwf : ∀ t, Scanned journal U (replay_init stack d) t → t.pos + 4 ≤ U →
      le16 journal t.pos = REC_DATA → le16 journal (t.pos + 2) = SIZEOF_DATA_RECORD) :
    ∀ s, Scanned journal U (replay_init stack d) s →
      s.pending_count ≤ 16 ∧ s.pending_count < PENDING_MAX := by
  intro s hs
  simp only [JOURNAL_BYTES_eq, SIZEOF_DATA_RECORD_eq, PENDING_MAX_eq] at hU hwf ⊢
  have h := scanned_invariant hU (by simp [replay_init]) (by simp [replay_init]) hs hwf
  omega

theorem pending_count_bounded_witness :
    (replay_init fresh committed_disk).pending_count ≤ 16
      ∧ (replay_init fresh committed_disk).pending_count < PENDING_MAX :=
  pending_count_bounded (read_journal committed_disk) 4116 fresh committed_disk (by decide)
    (fun t ht hp hd => committed_disk_well_formed fresh t ht hp hd)
    (replay_init fresh committed_disk) Scanned.start

/-- C18. Create cannot overrun the journal: whatever the journal held before the call,
when create succeeds the count of bytes in use stored in the header afterwards is
8 + 5 * 4104 + 4 = 20532, and after the writes of the initial checkpoint create issues
six appends, each within journal offsets 8 .. 20532, so below the inode bitmap block,
and then the header block. -/
theorem create_stays_in_journal (stack : Buf) (name : List Nat) (d d2 : Disk)
    (h : cmd_create stack name d = some (d2, .committed)) :
    (disk_header d2).nbytes_used
        = SIZEOF_JOURNAL_HEADER + 5 * SIZEOF_DATA_RECORD + SIZEOF_REC_HEADER
      ∧ (disk_header d2).nbytes_used = 20532
      ∧ ∃ d1 appends, cmd_install stack d = some d1
          ∧ d2.writes = d1.writes ++ appends
              ++ [(JOURNAL_BLOCK_IDX * BLOCK_SIZE,
                    bytes (header_block { magic := JOURNAL_MAGIC, nbytes_used := 20532 })
                      BLOCK_SIZE)]
          ∧ appends.length = 6
          ∧ ∀ w ∈ appends, JOURNAL_BLOCK_IDX * BLOCK_SIZE + 8 ≤ w.1
              ∧ w.1 + w.2.length ≤ JOURNAL_BLOCK_IDX * BLOCK_SIZE + 20532
              ∧ w.1 + w.2.length ≤ JOURNAL_BLOCK_IDX * BLOCK_SIZE + JOURNAL_BYTES
              ∧ w.1 + w.2.length ≤ INODE_BMAP_IDX * BLOCK_SIZE := by
  obtain ⟨d1, m, hi, -, rfl⟩ := cmd_create_committed h
  have hh := disk_header_append_transaction d1 m
  refine ⟨by rw [hh]; simp, by rw [hh], d1,
    [(4104, bytes (data_record_bytes 17 m.inode_bitmap) 4104),
     (8208, bytes (data_record_bytes 18 m.data_bitmap) 4104),
     (12312, bytes (data_record_bytes 19 m.inode_blocks) 4104),
     (16416, bytes (data_record_bytes 20 (buf_at m.inode_blocks 4096)) 4104),
     (20520, bytes (data_record_bytes 21 m.root_dir_block) 4104),
     (24624, bytes commit_record_bytes 4)], hi, ?_, rfl, ?_⟩
  · rw [append_transaction_empty_writes]
    simp
  · intro w hw
    simp only [List.mem_cons, List.mem_singleton, List.not_mem_nil, or_false] at hw
    rcases hw with rfl | rfl | rfl | rfl | rfl | rfl <;> simp

theorem create_stays_in_journal_witness :
    (disk_header created_disk).nbytes_used
        = SIZEOF_JOURNAL_HEADER + 5 * SIZEOF_DATA_RECORD + SIZEOF_REC_HEADER
      ∧ (disk_header created_disk).nbytes_used = 20532
      ∧ ∃ d1 appends, cmd_install fresh zero_disk = some d1
          ∧ created_disk.writes = d1.writes ++ appends
              ++ [(JOURNAL_BLOCK_IDX * BLOCK_SIZE,
                    bytes (header_block { magic := JOURNAL_MAGIC, nbytes_used := 20532 })
                      BLOCK_SIZE)]
          ∧ appends.length = 6
          ∧ ∀ w ∈ appends, JOURNAL_BLOCK_IDX * BLOCK_SIZE + 8 ≤ w.1
              ∧ w.1 + w.2.length ≤ JOURNAL_BLOCK_IDX * BLOCK_SIZE + 20532
              ∧ w.1 + w.2.length ≤ JOURNAL_BLOCK_IDX * BLOCK_SIZE + JOURNAL_BYTES
              ∧ w.1 + w.2.length ≤ INODE_BMAP_IDX * BLOCK_SIZE :=
  create_stays_in_journal fresh name_a zero_disk created_disk cmd_create_zero_disk_eq

/-- C14. Transaction composition: when create succeeds, after the writes of its initial
checkpoint it appends five records for blocks 17, 18, 19, 20 and 21, in that order and
back to back from journal offset 8, then one commit record, and then writes the header
block; a data record has type 1, size 4104, its destination in `block_no` and the
block image as payload, the commit record has type 2 and size 4; the payload of the
record for block 18 is the data bitmap as read from disk. -/
theorem create_appends_transaction (stack : Buf) (name : List Nat) (d d2 : Disk)
    (h : cmd_create stack name d = some (d2, .committed)) :
    (∃ d1 m, cmd_install stack d = some d1
        ∧ stage_create name (read_metadata d1) = .ok m
        ∧ d2.writes = d1.writes ++
            [(JOURNAL_BLOCK_IDX * BLOCK_SIZE + 8,
                bytes (data_record_bytes INODE_BMAP_IDX m.inode_bitmap) SIZEOF_DATA_RECORD),
             (JOURNAL_BLOCK_IDX * BLOCK_SIZE + 8 + 4104,
                bytes (data_record_bytes DATA_BMAP_IDX m.data_bitmap) SIZEOF_DATA_RECORD),
             (JOURNAL_BLOCK_IDX * BLOCK_SIZE + 8 + 2 * 4104,
                bytes (data_record_bytes INODE_START_IDX m.inode_blocks) SIZEOF_DATA_RECORD),
             (JOURNAL_BLOCK_IDX * BLOCK_SIZE + 8 + 3 * 4104,
                bytes (data_record_bytes (INODE_START_IDX + 1) (buf_at m.inode_blocks BLOCK_SIZE))
                  SIZEOF_DATA_RECORD),
             (JOURNAL_BLOCK_IDX * BLOCK_SIZE + 8 + 4 * 4104,
                bytes (data_record_bytes DATA_START_IDX m.root_dir_block) SIZEOF_DATA_RECORD),
             (JOURNAL_BLOCK_IDX * BLOCK_SIZE + 8 + 5 * 4104,
                bytes commit_record_bytes SIZEOF_REC_HEADER),
             (JOURNAL_BLOCK_IDX * BLOCK_SIZE,
                bytes (header_block { magic := JOURNAL_MAGIC, nbytes_used := 20532 })
                  BLOCK_SIZE)]
        ∧ m.data_bitmap = read_block d1 DATA_BMAP_IDX fresh 0)
      ∧ (∀ (b : Nat) (img : Buf), b < 2 ^ 32 →
          le16 (data_record_bytes b img) 0 = REC_DATA
            ∧ le16 (data_record_bytes b img) 2 = SIZEOF_DATA_RECORD
            ∧ le32 (data_record_bytes b img) 4 = b
            ∧ ∀ k, k < BLOCK_SIZE → data_record_bytes b img (8 + k) = img k)
      ∧ le16 commit_record_bytes 0 = REC_COMMIT
      ∧ le16 commit_record_bytes 2 = SIZEOF_REC_HEADER := by
  obtain ⟨d1, m, hi, hs, rfl⟩ := cmd_create_committed h
  refine ⟨⟨d1, m, hi, hs, append_transaction_empty_writes d1 m, ?_⟩, ?_,
    commit_record_bytes_header.1, commit_record_bytes_header.2⟩
  · obtain ⟨k, slot, -, -, rfl⟩ := stage_create_ok_inv hs
    rfl
  · intro b img hb
    exact ⟨data_record_bytes_type b img, data_record_bytes_size b img,
      data_record_bytes_block_no b img (by simpa using hb),
      fun k hk => data_record_bytes_block b img k (by simpa using hk)⟩

theorem create_appends_transaction_witness :
    (∃ d1 m, cmd_install fresh zero_disk = some d1
        ∧ stage_create name_a (read_metadata d1) = .ok m
        ∧ created_disk.writes = d1.writes ++
            [(JOURNAL_BLOCK_IDX * BLOCK_SIZE + 8,
                bytes (data_record_bytes INODE_BMAP_IDX m.inode_bitmap) SIZEOF_DATA_RECORD),
             (JOURNAL_BLOCK_IDX * BLOCK_SIZE + 8 + 4104,
                bytes (data_record_bytes DATA_BMAP_IDX m.data_bitmap) SIZEOF_DATA_RECORD),
             (JOURNAL_BLOCK_IDX * BLOCK_SIZE + 8 + 2 * 4104,
                bytes (data_record_bytes INODE_START_IDX m.inode_blocks) SIZEOF_DATA_RECORD),
             (JOURNAL_BLOCK_IDX * BLOCK_SIZE + 8 + 3 * 4104,
                bytes (data_record_bytes (INODE_START_IDX + 1) (buf_at m.inode_blocks BLOCK_SIZE))
                  SIZEOF_DATA_RECORD),
             (JOURNAL_BLOCK_IDX * BLOCK_SIZE + 8 + 4 * 4104,
                bytes (data_record_bytes DATA_START_IDX m.root_dir_block) SIZEOF_DATA_RECORD),
             (JOURNAL_BLOCK_IDX * BLOCK_SIZE + 8 + 5 * 4104,
                bytes commit_record_bytes SIZEOF_REC_HEADER),
             (JOURNAL_BLOCK_IDX * BLOCK_SIZE,
                bytes (header_block { magic := JOURNAL_MAGIC, nbytes_used := 20532 })
                  BLOCK_SIZE)]
        ∧ m.data_bitmap = read_block d1 DATA_BMAP_IDX fresh 0)
      ∧ (∀ (b : Nat) (img : Buf), b < 2 ^ 32 →
          le16 (data_record_bytes b img) 0 = REC_DATA
            ∧ le16 (data_record_bytes b img) 2 = SIZEOF_DATA_RECORD
            ∧ le32 (data_record_bytes b img) 4 = b
            ∧ ∀ k, k < BLOCK_SIZE → data_record_bytes b img (8 + k) = img k)
      ∧ le16 commit_record_bytes 0 = REC_COMMIT
      ∧ le16 commit_record_bytes 2 = SIZEOF_REC_HEADER :=
  create_appends_transaction fresh name_a zero_disk created_disk cmd_create_zero_disk_eq

/-- C16. Allocation effect of create: when create succeeds, with `k` the inode it
allocated, the staged inode bitmap has bit `k` set, every other bit as read from disk
and every byte but the one of bit `k` as read from disk; the staged inode slot `k` has
type 1, links 1 and size 0, its bytes 0 and 2 being 1 and all its other bytes zero;
every byte of the two staged inode table blocks outside slot `k` is as read from
disk. -/
theorem create_allocation_effect (stack : Buf) (name : List Nat) (d d2 : Disk)
    (h : cmd_create stack name d = some (d2, .committed)) :
    ∃ d1 m k, cmd_install stack d = some d1
      ∧ stage_create name (read_metadata d1) = .ok m
      ∧ d2 = append_transaction d1 empty_header m
      ∧ alloc_inode (read_metadata d1).inode_bitmap = some k ∧ k < 16
      ∧ bitmap_test m.inode_bitmap k = 1
      ∧ (∀ j, j ≠ k →
          bitmap_test m.inode_bitmap j = bitmap_test (read_metadata d1).inode_bitmap j)
      ∧ (∀ b, b ≠ k / 8 → m.inode_bitmap b = (read_metadata d1).inode_bitmap b)
      ∧ le16 m.inode_blocks (k * INODE_SIZE) = 1
      ∧ le16 m.inode_blocks (k * INODE_SIZE + 2) = 1
      ∧ le32 m.inode_blocks (k * INODE_SIZE + 4) = 0
      ∧ (∀ t, t < INODE_SIZE →
          m.inode_blocks (k * INODE_SIZE + t) = if t = 0 ∨ t = 2 then 1 else 0)
      ∧ (∀ a, a < k * INODE_SIZE ∨ k * INODE_SIZE + INODE_SIZE ≤ a →
          m.inode_blocks a = (read_metadata d1).inode_blocks a) := by
  obtain ⟨d1, m, hi, hs, rfl⟩ := cmd_create_committed h
  obtain ⟨k, slot, hk, -, hm⟩ := stage_create_ok_inv hs
  have hf := init_inode_fields (read_metadata d1).inode_blocks k
  refine ⟨d1, m, k, hi, hs, rfl, hk, alloc_inode_lt hk, ?_, ?_, ?_, ?_, ?_, ?_, ?_, ?_⟩ <;>
    rw [hm] <;> simp only [INODE_SIZE_eq]
  · rw [bitmap_test_set, if_pos rfl]
  · intro j hj
    rw [bitmap_test_set, if_neg hj]
  · intro b hb
    exact bitmap_set_other_byte _ _ _ hb
  · exact hf.1
  · exact hf.2.1
  · exact hf.2.2
  · intro t ht
    exact init_inode_slot _ _ _ ht
  · intro a ha
    exact init_inode_outside _ _ _ ha

theorem create_allocation_effect_witness :
    ∃ d1 m k, cmd_install fresh zero_disk = some d1
      ∧ stage_create name_a (read_metadata d1) = .ok m
      ∧ created_disk = append_transaction d1 empty_header m
      ∧ alloc_inode (read_metadata d1).inode_bitmap = some k ∧ k < 16
      ∧ bitmap_test m.inode_bitmap k = 1
      ∧ (∀ j, j ≠ k →
          bitmap_test m.inode_bitmap j = bitmap_test (read_metadata d1).inode_bitmap j)
      ∧ (∀ b, b ≠ k / 8 → m.inode_bitmap b = (read_metadata d1).inode_bitmap b)
      ∧ le16 m.inode_blocks (k * INODE_SIZE) = 1
      ∧ le16 m.inode_blocks (k * INODE_SIZE + 2) = 1
      ∧ le32 m.inode_blocks (k * INODE_SIZE + 4) = 0
      ∧ (∀ t, t < INODE_SIZE →
          m.inode_blocks (k * INODE_SIZE + t) = if t = 0 ∨ t = 2 then 1 else 0)
      ∧ (∀ a, a < k * INODE_SIZE ∨ k * INODE_SIZE + INODE_SIZE ≤ a →
          m.inode_blocks a = (read_metadata d1).inode_blocks a) :=
  create_allocation_effect fresh name_a zero_disk created_disk cmd_create_zero_disk_eq

/-- C15 fails on the code: `create a.txt` on the all-zero image commits and stores
20532 bytes in use, yet the journal bytes at offsets 8 .. 4095 on disk are zero,
whereas the serialisation of the first data record starts with the byte 1 (type Data)
and has 8 (low byte of the size 4104) as third byte: the header flush at the end of
create rewrote the first journal block. -/
theorem journal_after_create_lacks_first_record :
    cmd_create fresh name_a zero_disk = some (created_disk, .committed)
      ∧ (disk_header created_disk).nbytes_used = 20532
      ∧ (∀ k, 8 ≤ k → k < BLOCK_SIZE → created_disk.data (JOURNAL_BLOCK_IDX * BLOCK_SIZE + k) = 0)
      ∧ data_record_bytes INODE_BMAP_IDX staged_a.inode_bitmap 0 = 1
      ∧ data_record_bytes INODE_BMAP_IDX staged_a.inode_bitmap 2 = 8
      ∧ le16 (read_journal created_disk) 8 = 0
      ∧ le16 (read_journal created_disk) 10 = 0 := by
  have hz : ∀ k, 8 ≤ k → k < 4096 → created_disk.data (4096 + k) = 0 :=
    fun k h8 hk => append_transaction_clobbers clean_disk staged_a k ⟨h8, hk⟩
  have h8 := hz 8 (by omega) (by omega)
  have h9 := hz 9 (by omega) (by omega)
  have h10 := hz 10 (by omega) (by omega)
  have h11 := hz 11 (by omega) (by omega)
  simp only [Nat.reduceAdd] at h8 h9 h10 h11
  refine ⟨cmd_create_zero_disk_eq,
    congrArg journal_header.nbytes_used (disk_header_append_transaction clean_disk staged_a),
    ?_, by simp [data_record_bytes], by simp [data_record_bytes], ?_, ?_⟩
  · intro k h8 hk
    simp only [JOURNAL_BLOCK_IDX_eq, BLOCK_SIZE_eq, Nat.one_mul] at hk ⊢
    exact hz k h8 hk
  · simp only [le16, read_journal_apply, Nat.reduceAdd, Nat.reduceLT, if_true, h8, h9]
  · simp only [le16, read_journal_apply, Nat.reduceAdd, Nat.reduceLT, if_true, h10, h11]

/-- C13 fails on the code: on an image with inode bitmap bits 0..15 set, `create a.txt`
reports that no inode is free, and `main` called with the arguments `journal`,
`create`, `a.txt` returns the exit status 0; for every image and name the exit status
of a create command that returns is 0. -/
theorem main_returns_zero_on_no_free_inodes :
    (∀ i, i < 16 → bitmap_test (read_block full_clean_disk INODE_BMAP_IDX fresh 0) i = 1)
      ∧ cmd_create fresh name_a full_clean_disk
          = some (flush_journal_header full_clean_disk empty_header, .no_free_inodes)
      ∧ main fresh [str_journal, str_create, name_a] full_clean_disk
          = some (flush_journal_header full_clean_disk empty_header, 0)
      ∧ ∀ (stack : Buf) (name : List Nat) (d : Disk) (r : Disk × Nat),
          main stack [str_journal, str_create, name] d = some r → r.2 = 0 := by
  refine ⟨full_clean_disk_bitmap, cmd_create_full_clean_disk fresh name_a, ?_, ?_⟩
  · rw [main_create, cmd_create_full_clean_disk]
    rfl
  · intro stack name d r hr
    rw [main_create] at hr
    cases hc : cmd_create stack name d with
    | none => rw [hc] at hr; simp at hr
    | some x =>
      rw [hc] at hr
      simp only [Option.map_some', Option.some.injEq] at hr
      rw [← hr]

/-- C12, amended. Stop rule of the scan, with at most 65536 bytes in use: at a record
whose header does not lie below the bytes in use, or whose declared size is zero, the
scan ends in the state it is in, with no effect; a record whose header lies below the
bytes in use and whose declared size exceeds the bytes remaining is the last one
processed: when its type is not Commit (and, for type Data, the copy stays inside
`journal[]` and `pending[]`) the scan ends with the image untouched, whereas a record
of type Commit applies the pending records whatever its declared size. -/
theorem torn_tail_stop_rule (journal : Buf) (U : Nat) (s : Replay) (hU : U ≤ JOURNAL_BYTES) :
    (¬ s.pos + SIZEOF_REC_HEADER ≤ U → replay_loop journal U s = some s)
      ∧ (s.pos + SIZEOF_REC_HEADER ≤ U → le16 journal (s.pos + 2) = 0 →
          replay_loop journal U s = some s)
      ∧ (s.pos + SIZEOF_REC_HEADER ≤ U → le16 journal (s.pos + 2) ≠ 0 →
          U - s.pos < le16 journal (s.pos + 2) →
          (le16 journal s.pos ≠ REC_COMMIT →
              (le16 journal s.pos = REC_DATA →
                s.pos + le16 journal (s.pos + 2) ≤ JOURNAL_BYTES
                  ∧ s.pending_count * SIZEOF_DATA_RECORD + le16 journal (s.pos + 2)
                      ≤ PENDING_BYTES) →
              ∃ t, replay_loop journal U s = some t ∧ t.disk = s.disk)
            ∧ (le16 journal s.pos = REC_COMMIT →
                ∃ t, replay_loop journal U s = some t
                  ∧ t.disk = apply_pending s.pending s.pending_count s.disk)) := by
  simp only [JOURNAL_BYTES_eq, SIZEOF_REC_HEADER_eq, SIZEOF_DATA_RECORD_eq, PENDING_BYTES_eq,
    REC_COMMIT_eq] at hU ⊢
  refine ⟨fun h => replay_loop_past h, fun hpos hsize => replay_loop_zero_size hU hpos hsize,
    ?_⟩
  intro hpos hsize hover
  constructor
  · intro htype hdata
    obtain ⟨t, hstep, hdisk, htpos⟩ :=
      replay_step_no_commit hU hpos hsize (by simpa using htype) hdata
    rw [replay_loop_next hstep]
    exact ⟨t, replay_loop_past (by omega), hdisk⟩
  · intro htype
    have hstep := @replay_step_commit journal U s hpos (by omega) htype hsize
    rw [replay_loop_next hstep]
    exact ⟨_, replay_loop_past (by simp only; omega), rfl⟩

theorem torn_tail_stop_rule_witness :
    ∃ t, replay_loop (read_journal long_commit_disk) 4116 long_commit_state = some t
      ∧ t.disk = apply_pending long_commit_state.pending long_commit_state.pending_count
          long_commit_state.disk :=
  ((torn_tail_stop_rule (read_journal long_commit_disk) 4116 long_commit_state
      (by decide)).2.2
    (by decide)
    (by show le16 (read_journal long_commit_disk) 4114 ≠ 0
        rw [long_commit_disk_commit.2]; decide)
    (by show 4116 - 4112 < le16 (read_journal long_commit_disk) 4114
        rw [long_commit_disk_commit.2]; decide)).2
    long_commit_disk_commit.1

/-- C12 as stated fails: in the journal of `long_commit_disk`, with 4116 bytes in use,
the record at offset 4112 has type Commit and declares the size 100, more than the 4
bytes remaining, and the checkpoint applies the pending data record: the first byte
of block 17 changes from 0 to 255. -/
theorem oversize_commit_applies_pending :
    (disk_header long_commit_disk).nbytes_used = 4116
      ∧ le16 (read_journal long_commit_disk) 4112 = REC_COMMIT
      ∧ le16 (read_journal long_commit_disk) 4114 = 100
      ∧ long_commit_disk.data (INODE_BMAP_IDX * BLOCK_SIZE) = 0
      ∧ ∃ d', cmd_install fresh long_commit_disk = some d'
          ∧ d'.data (INODE_BMAP_IDX * BLOCK_SIZE) = 255 := by
  refine ⟨congrArg journal_header.nbytes_used disk_header_long_commit_disk,
    long_commit_disk_commit.1, long_commit_disk_commit.2, long_commit_disk_block,
    _, cmd_install_long_commit_disk fresh, ?_⟩
  obtain ⟨hbn, hblk⟩ := pending_of_records fresh long_commit_disk_holds 0 (by simp)
    (by simp)
  simp only [List.length_singleton, List.getElem_cons_zero] at hbn hblk
  have hw := apply_pending_data_written
    (copy_records (read_journal long_commit_disk) 1 8 0 fresh) 1 long_commit_disk 0 0
    (by omega) (by omega) (by intro j hj hne; omega)
  rw [hbn, Nat.add_zero, hblk 0 (by omega)] at hw
  simp only [INODE_BMAP_IDX_eq, BLOCK_SIZE_eq]
  rw [flush_data_outside _ _ _ (by omega), hw]
  rfl

end VSFS
